import Mathlib

/-!
# smartctl2prom: the text-report decoder and the raw-value interpreter

A shallow embedding of `smartctldata/legacy.go`, `smartctldata/decode.go`,
`smartctldata/types.go` and of `readRawValue` in `smartctl2prom.go`.

Conventions of the embedding.

* A Go `string` is a `List Char` (`Str`): the code points of valid UTF-8 text.
* Go `int64`/`int32`/`int` values are `Int`; every number the text decoder
  stores comes out of `strconv.ParseInt`, whose range check keeps it inside
  the target width, so no conversion truncates.  The only operators applied to
  them are `/` (truncating, `Int.tdiv`, wrapped to 64 bits) and `&` with a
  non-negative mask (`and64`).
* A Go `error` is an `Error`: `io.EOF` or a parse error that records the
  `fmt.Errorf` site and its argument instead of the formatted message.
* A run-time panic (index out of range) is the `none` of an `Option` result.
* The Go standard library is not part of the repository; the functions the
  decoder calls are modelled below from their documented behaviour.
  `time.Parse` and `Time.Format` depend on the host's time-zone database and
  are taken as a parameter (`TimeLib`).
-/

namespace Smartctl2Prom

/-- A Go string. -/
abbrev Str := List Char

/-! ## Go standard library: `unicode`, `strings` -/

/-- Go `unicode.IsSpace`. -/
def isSpace (c : Char) : Bool :=
  let n := c.toNat
  (decide (9 ≤ n) && decide (n ≤ 13)) || n == 32 || n == 0x85 || n == 0xA0 || n == 0x1680 ||
  (decide (0x2000 ≤ n) && decide (n ≤ 0x200A)) || n == 0x2028 || n == 0x2029 || n == 0x202F ||
  n == 0x205F || n == 0x3000

/-- Go `strings.TrimSpace`: drops leading and trailing white space. -/
def trimSpace (s : Str) : Str :=
  ((s.dropWhile isSpace).reverse.dropWhile isSpace).reverse

/-- Worker of `fields`: `cur` is the field being collected, in order. -/
def fieldsGo : Str → Str → List Str
  | [], cur => if cur = [] then [] else [cur]
  | c :: cs, cur =>
    if isSpace c then
      if cur = [] then fieldsGo cs [] else cur :: fieldsGo cs []
    else fieldsGo cs (cur ++ [c])

/-- Go `strings.Fields`: the maximal runs of non-space characters. -/
def fields (s : Str) : List Str := fieldsGo s []

/-- Go `strings.HasPrefix`. -/
def hasPrefix (s p : Str) : Bool := p.isPrefixOf s

/-- Go `strings.Index`: position of the first occurrence of `sep` in `s`;
`none` stands for `-1`. -/
def index : Str → Str → Option Nat
  | [], sep => if sep = [] then some 0 else none
  | c :: cs, sep =>
    if sep.isPrefixOf (c :: cs) then some 0 else (index cs sep).map (· + 1)

/-- Go `strings.SplitN` for a non-empty separator and `n ≥ 0`: at most `n`
pieces, the last one being the unsplit remainder. -/
def splitN (s sep : Str) : Nat → List Str
  | 0 => []
  | 1 => [s]
  | n + 2 =>
    match index s sep with
    | none => [s]
    | some m => s.take m :: splitN (s.drop (m + sep.length)) sep (n + 1)

/-- Worker of `replaceAll`: `skip` counts the characters of a matched
occurrence still to be dropped. -/
def replaceAllGo (old new : Str) : Nat → Str → Str
  | _, [] => []
  | skip + 1, _ :: cs => replaceAllGo old new skip cs
  | 0, c :: cs =>
    if old.isPrefixOf (c :: cs) then new ++ replaceAllGo old new (old.length - 1) cs
    else c :: replaceAllGo old new 0 cs

/-- Go `strings.ReplaceAll` for a non-empty `old`: non-overlapping
occurrences replaced from left to right. -/
def replaceAll (s old new : Str) : Str := replaceAllGo old new 0 s

/-- Go `unicode.ToLower` on the characters whose lower case is an ASCII
letter (`A`-`Z`, U+0130, U+212A).  Other characters are returned unchanged:
for the non-ASCII capitals among them Go returns their non-ASCII lower
case, which never equals an ASCII key. -/
def toLowerRune (c : Char) : Char :=
  if 65 ≤ c.toNat ∧ c.toNat ≤ 90 then Char.ofNat (c.toNat + 32)
  else if c.toNat = 0x130 then 'i'
  else if c.toNat = 0x212A then 'k'
  else c

/-- Go `strings.ToLower`. -/
def toLower (s : Str) : Str := s.map toLowerRune

/-- Representative of a character's simple case-folding orbit, for the orbits
that contain an ASCII letter: `A`-`Z` with `a`-`z`, U+017F with `s`, U+212A
with `k`. -/
def foldRune (c : Char) : Char :=
  if 65 ≤ c.toNat ∧ c.toNat ≤ 90 then Char.ofNat (c.toNat + 32)
  else if c.toNat = 0x17F then 's'
  else if c.toNat = 0x212A then 'k'
  else c

/-- Go `strings.EqualFold`, exact whenever one of the two strings is ASCII
(the decoder only compares against the ASCII constant `PASSED`). -/
def equalFold (s t : Str) : Bool := s.map foldRune == t.map foldRune

/-! ## Go standard library: `strconv.ParseInt` -/

/-- Value of one digit character as `strconv.ParseUint` reads it: `0`-`9`,
and a letter in either case as `10`-`35`. -/
def digitVal (c : Char) : Option Nat :=
  let n := c.toNat
  if 48 ≤ n ∧ n ≤ 57 then some (n - 48)
  else if 97 ≤ n ∧ n ≤ 122 then some (n - 97 + 10)
  else if 65 ≤ n ∧ n ≤ 90 then some (n - 65 + 10)
  else none

/-- The digit loop of `strconv.ParseUint`: `none` on a character that is not
a digit of the base (an underscore is skipped when the base was given as 0). -/
def parseDigits (base : Nat) (base0 : Bool) : Str → Nat → Option Nat
  | [], acc => some acc
  | c :: cs, acc =>
    if c = '_' ∧ base0 = true then parseDigits base base0 cs acc
    else
      match digitVal c with
      | none => none
      | some d => if base ≤ d then none else parseDigits base base0 cs (acc * base + d)

/-- The scanning loop of `strconv.underscoreOK`; `saw` is `0` at the
beginning (`^`), `1` after a digit or base prefix, `2` after an underscore,
`3` after anything else. -/
def underscoreScan (hex : Bool) : Str → Nat → Bool
  | [], saw => saw != 2
  | c :: cs, saw =>
    let n := c.toNat
    if (48 ≤ n ∧ n ≤ 57) ∨ (hex = true ∧ ((97 ≤ n ∧ n ≤ 102) ∨ (65 ≤ n ∧ n ≤ 70))) then
      underscoreScan hex cs 1
    else if c = '_' then
      if saw != 1 then false else underscoreScan hex cs 2
    else if saw == 2 then false
    else underscoreScan hex cs 3

/-- Go `strconv.underscoreOK`: underscores may only separate digits (a base
prefix counts as a digit). -/
def underscoreOK (s : Str) : Bool :=
  let s := match s with
    | '-' :: r => r
    | '+' :: r => r
    | _ => s
  match s with
  | '0' :: c :: r =>
    if c = 'b' ∨ c = 'B' ∨ c = 'o' ∨ c = 'O' ∨ c = 'x' ∨ c = 'X' then
      underscoreScan (decide (c = 'x' ∨ c = 'X')) r 1
    else underscoreScan false s 0
  | _ => underscoreScan false s 0

/-- Go `strconv.ParseUint(s, base, bitSize)` for `base` 0 or 2..36 and
`1 ≤ bitSize ≤ 64`; `none` stands for any error (syntax or range). -/
def parseUint (s : Str) (base bitSize : Nat) : Option Nat :=
  if s = [] then none
  else
    let base0 := decide (base = 0)
    let bd : Nat × Str :=
      if base0 = true then
        match s with
        | '0' :: c :: d :: r =>
          if c = 'b' ∨ c = 'B' then (2, d :: r)
          else if c = 'o' ∨ c = 'O' then (8, d :: r)
          else if c = 'x' ∨ c = 'X' then (16, d :: r)
          else (8, c :: d :: r)
        | '0' :: r => (8, r)
        | _ => (10, s)
      else (base, s)
    match parseDigits bd.1 base0 bd.2 0 with
    | none => none
    | some n =>
      if 2 ^ bitSize ≤ n then none
      else if base0 = true ∧ '_' ∈ bd.2 ∧ underscoreOK s = false then none
      else some n

/-- Go `strconv.ParseInt(s, base, bitSize)`; `none` stands for any error. -/
def parseInt (s : Str) (base bitSize : Nat) : Option Int :=
  match s with
  | [] => none
  | c :: r =>
    let neg := decide (c = '-')
    let body := if c = '+' ∨ c = '-' then r else s
    match parseUint body base bitSize with
    | none => none
    | some un =>
      if neg = false ∧ 2 ^ (bitSize - 1) ≤ un then none
      else if neg = true ∧ 2 ^ (bitSize - 1) < un then none
      else some (if neg = true then -(un : Int) else (un : Int))

/-! ## Machine arithmetic on `int64` -/

/-- Two's-complement wrap of an integer to the `int64` range. -/
def wrap64 (x : Int) : Int := (x + 2 ^ 63) % 2 ^ 64 - 2 ^ 63

/-- Go `a / b` on `int64` for `b ≠ 0`: truncated division, wrapped. -/
def div64 (a b : Int) : Int := wrap64 (Int.tdiv a b)

/-- Go `x & mask` on `int64` for a mask `0 ≤ mask < 2^63`. -/
def and64 (x : Int) (mask : Nat) : Int := (((x % 2 ^ 64).toNat &&& mask : Nat) : Int)

/-! ## The record data model (`smartctldata/types.go`) -/

structure Invocation where
  Version : Int × Int := (0, 0)
  SvnRevision : Str := []
  PlatformInfo : Str := []
  BuildInfo : Str := []
  Argv : List Str := []
  ExitStatus : Int := 0
  deriving DecidableEq, Repr

structure Device where
  Name : Str := []
  InfoName : Str := []
  Type_ : Str := []   -- Go field `Type`
  Protocol : Str := []
  deriving DecidableEq, Repr

structure WWN where
  NAA : Int := 0
  OUI : Int := 0
  ID : Int := 0
  deriving DecidableEq, Repr

structure Capacity where
  Blocks : Int := 0
  Bytes : Int := 0
  deriving DecidableEq, Repr

structure ATAVersion where
  Text : Str := []
  Major : Int := 0
  Minor : Int := 0
  deriving DecidableEq, Repr

structure SATAVersion where
  Text : Str := []
  Value : Int := 0
  deriving DecidableEq, Repr

structure SpeedSpec where
  SATAValue : Int := 0
  Text : Str := []
  UnitsPerSecond : Int := 0
  BitsPerUnit : Int := 0
  deriving DecidableEq, Repr

structure InterfaceSpeed where
  Max : SpeedSpec := {}
  Current : SpeedSpec := {}
  deriving DecidableEq, Repr

structure Time where
  TimeT : Int := 0
  AscTime : Str := []
  deriving DecidableEq, Repr

structure SMARTStatus where
  Passed : Bool := false
  deriving DecidableEq, Repr

structure DataCollectionStatus where
  Value : Int := 0
  Text : Str := []
  deriving DecidableEq, Repr

structure OfflineDataCollection where
  Status : DataCollectionStatus := {}
  CompletionSeconds : Int := 0
  deriving DecidableEq, Repr

structure SelfTestStatus where
  Value : Int := 0
  Text : Str := []
  Passed : Bool := false
  deriving DecidableEq, Repr

structure SelfTestTime where
  Short : Int := 0
  Extended : Int := 0
  Conveyance : Int := 0
  deriving DecidableEq, Repr

structure SelfTestData where
  Status : SelfTestStatus := {}
  PollingMinutes : SelfTestTime := {}
  deriving DecidableEq, Repr

structure SMARTCapabilities where
  Values : List Int := []
  ExecOfflineImmediateSupported : Bool := false
  OfflineIsAbortedUponNewCmd : Bool := false
  OfflineSurfaceScanSupported : Bool := false
  SelfTestsSupported : Bool := false
  ConveyanceSelfTestSupported : Bool := false
  SelectiveSelfTestSupported : Bool := false
  AttributeAutosaveEnabled : Bool := false
  ErrorLoggingSupported : Bool := false
  GPLoggingSupported : Bool := false
  deriving DecidableEq, Repr

structure ATASMARTData where
  OfflineDataCollection : OfflineDataCollection := {}
  SelfTest : SelfTestData := {}
  Capabilities : SMARTCapabilities := {}
  deriving DecidableEq, Repr

structure ATASctCapabilities where
  Value : Int := 0
  ErrorRecoveryControlSupported : Bool := false
  FeatureControlSupported : Bool := false
  DataTableSupported : Bool := false
  deriving DecidableEq, Repr

structure SMARTAttributeFlags where
  Value : Int := 0
  Text : Str := []
  Prefailure : Bool := false
  UpdatedOnline : Bool := false
  Performance : Bool := false
  ErrorRate : Bool := false
  EventCount : Bool := false
  AutoKeep : Bool := false
  deriving DecidableEq, Repr

structure SMARTAttributeRawValue where
  Value : Int := 0
  Text : Str := []
  deriving DecidableEq, Repr

structure SMARTAttribute where
  ID : Int := 0
  Name : Str := []
  Value : Int := 0
  Worst : Int := 0
  Threshold : Int := 0
  WhenFailed : Str := []
  Flags : SMARTAttributeFlags := {}
  Raw : SMARTAttributeRawValue := {}
  deriving DecidableEq, Repr

/-- The table holds the attributes themselves: the Go slice holds pointers to
attributes that are never written again after they are appended. -/
structure ATASMARTAttributes where
  Revision : Int := 0
  Table : List SMARTAttribute := []
  deriving DecidableEq, Repr

structure PowerOnTime where
  Hours : Int := 0
  deriving DecidableEq, Repr

structure Temperature where
  Current : Int := 0
  deriving DecidableEq, Repr

/-- The record `Output`; `{}` is Go's zero value, the empty record. -/
structure Output where
  JsonFormatVersion : Int × Int := (0, 0)
  SmartCtl : Invocation := {}
  Device : Device := {}
  ModelFamily : Str := []
  ModelName : Str := []
  SerialNumber : Str := []
  WWN : WWN := {}
  FirmwareVersion : Str := []
  UserCapacity : Capacity := {}
  LogicalBlockSize : Int := 0
  PhysicalBlockSize : Int := 0
  InSmartCtlDatabase : Bool := false
  ATAVersion : ATAVersion := {}
  SATAVersion : SATAVersion := {}
  InterfaceSpeed : InterfaceSpeed := {}
  LocalTime : Time := {}
  SMARTStatus : SMARTStatus := {}
  ATASMARTData : ATASMARTData := {}
  ATASctCapabilities : ATASctCapabilities := {}
  ATASMARTAttributes : ATASMARTAttributes := {}
  PowerOnTime : PowerOnTime := {}
  PowerCycleCount : Int := 0
  Temperature : Temperature := {}
  deriving DecidableEq, Repr

/-! ## Errors and line handlers (`smartctldata/legacy.go`) -/

/-- The `fmt.Errorf` sites of `legacy.go`. -/
inductive Site where
  | infoSplit          -- parseInfo: cannot split %q into key:value pair
  | wwnSplit           -- parseInfo: cannot split %q into NAA, OUI and ID
  | wwnHex             -- parseInfo: cannot parse %q as hexadecimal number
  | capacityMarker     -- parseInfo: cannot parse %q as capacity
  | capacityNumber     -- parseInfo: cannot parse %q as decimal number (capacity)
  | sectorSplit        -- parseInfo: cannot parse %q as block size (no space)
  | sectorSuffix       -- parseInfo: cannot parse %q as block size (unknown suffix)
  | sectorNumber       -- parseInfo: cannot parse %q as decimal number (sector size)
  | localTime          -- parseInfo: time.Parse failed
  | repeatedHeader     -- parseSMARTAttrs: repeated header lines
  | duplicateField     -- parseSMARTAttrs: duplicate header field %q
  | incompleteHeader   -- parseSMARTAttrs: not all fields discovered in %q
  | rowBeforeHeader    -- parseSMARTAttrs: non-header line before header
  | attrID             -- parseSMARTAttrs: cannot parse attribute ID %q
  | attrValue          -- parseSMARTAttrs: cannot parse attribute current value %q
  | attrWorst          -- parseSMARTAttrs: cannot parse attribute worst value %q
  | attrThreshold      -- parseSMARTAttrs: cannot parse attribute threshold %q
  | attrRaw            -- parseSMARTAttrs: cannot parse attribute raw value %q
  | attrFlags          -- parseSMARTAttrs: cannot parse attribute flags %q
  | promSplit          -- parseSmartCtl2Prom: cannot split %q into key:value pair
  | promExitCode       -- parseSmartCtl2Prom: cannot parse exit code %q
  | promTimestamp      -- parseSmartCtl2Prom: cannot parse timestamp %q
  deriving DecidableEq, Repr

/-- A Go `error` value as the decoder produces or forwards it. -/
inductive Error where
  | EOF                             -- io.EOF
  | parse (site : Site) (arg : Str) -- a fmt.Errorf of legacy.go
  deriving DecidableEq, Repr

/-- The column positions found in the attribute table header. -/
structure indices where
  name : Nat := 0
  flag : Nat := 0
  raw_value : Nat := 0
  threshold : Nat := 0
  value : Nat := 0
  worst : Nat := 0
  deriving DecidableEq, Repr

/-- The non-nil `lineParser` values: the three handler functions and a
`*parseSMARTAttrs` with its field `idx` (`none` is the nil pointer). -/
inductive LineParser where
  | parseInfo
  | parseSMARTData
  | parseSmartCtl2Prom
  | parseSMARTAttrs (idx : Option indices)
  deriving DecidableEq, Repr

/-- What a call of `Parse(o, l)` leaves behind: the record as written so far,
the returned handler (`none` is nil) and the returned error (`none` is nil). -/
structure Step where
  o : Output
  next : Option LineParser
  err : Option Error
  deriving DecidableEq, Repr

/-- The two `time` functions the decoder calls with the layout
`smartCtlDate = "Mon Jan _2 15:04:05 2006 MST"`:
`parse v` is `time.Parse(smartCtlDate, v)` followed by `Unix()` (`none` on
error), `format n` is `time.Unix(n, 0).Format(smartCtlDate)`. -/
structure TimeLib where
  parse : Str → Option Int
  format : Int → Str

/-- The step `return nil, fmt.Errorf(...)`. -/
def Step.fail (o : Output) (site : Site) (arg : Str) : Step :=
  ⟨o, none, some (Error.parse site arg)⟩

/-- The loop over `&o.WWN.NAA, &o.WWN.OUI, &o.WWN.ID` of `parseInfo`, after
the split into three pieces succeeded. -/
def parseInfoWWN (o : Output) (f0 f1 f2 : Str) : Step :=
  match parseInt f0 16 64 with
  | none => Step.fail o Site.wwnHex f0
  | some naa =>
    let o := { o with WWN := { o.WWN with NAA := naa } }
    match parseInt f1 16 64 with
    | none => Step.fail o Site.wwnHex f1
    | some oui =>
      let o := { o with WWN := { o.WWN with OUI := oui } }
      match parseInt f2 16 64 with
      | none => Step.fail o Site.wwnHex f2
      | some id => ⟨{ o with WWN := { o.WWN with ID := id } }, some LineParser.parseInfo, none⟩

/-- The statement shared by the `user capacity` and `sector sizes` cases:
`if o.LogicalBlockSize != 0 { o.UserCapacity.Blocks = Bytes / LogicalBlockSize }`. -/
def updateBlocks (o : Output) : Output :=
  if o.LogicalBlockSize ≠ 0 then
    { o with UserCapacity :=
        { o.UserCapacity with Blocks := div64 o.UserCapacity.Bytes o.LogicalBlockSize } }
  else o

/-- Case `user capacity` of `parseInfo`. -/
def parseInfoCapacity (o : Output) (v : Str) : Step :=
  match index v " bytes [".toList with
  | none => Step.fail o Site.capacityMarker v
  | some i =>
    let v := replaceAll (v.take i) ",".toList []
    match parseInt v 10 64 with
    | none => Step.fail o Site.capacityNumber v
    | some bytes =>
      let o := { o with UserCapacity := { o.UserCapacity with Bytes := bytes } }
      ⟨updateBlocks o, some LineParser.parseInfo, none⟩

/-- The loop `for _, s := range f` of case `sector sizes`: the record after
the clauses processed so far, and the error that stopped the loop. -/
def parseInfoSectors : List Str → Output → Output × Option Error
  | [], o => (o, none)
  | s :: rest, o =>
    match splitN s " ".toList 2 with
    | [ss0, ss1] =>
      if ss1 = "bytes logical".toList then
        match parseInt ss0 10 64 with
        | none => (o, some (Error.parse Site.sectorNumber ss0))
        | some n => parseInfoSectors rest { o with LogicalBlockSize := n }
      else if ss1 = "bytes physical".toList then
        match parseInt ss0 10 64 with
        | none => (o, some (Error.parse Site.sectorNumber ss0))
        | some n => parseInfoSectors rest { o with PhysicalBlockSize := n }
      else (o, some (Error.parse Site.sectorSuffix s))
    | _ => (o, some (Error.parse Site.sectorSplit s))

/-- The `switch k` statement of `parseInfo`, with `k` the lower-cased key and
`v` the trimmed value of the line. -/
def parseInfoSwitch (tl : TimeLib) (o : Output) (k v : Str) : Step :=
  if k = "model family".toList then
    ⟨{ o with ModelFamily := v }, some LineParser.parseInfo, none⟩
  else if k = "device model".toList then
    ⟨{ o with ModelName := v }, some LineParser.parseInfo, none⟩
  else if k = "serial number".toList then
    ⟨{ o with SerialNumber := v }, some LineParser.parseInfo, none⟩
  else if k = "lu wwn device id".toList then
    match splitN v " ".toList 3 with
    | [f0, f1, f2] => parseInfoWWN o f0 f1 f2
    | _ => Step.fail o Site.wwnSplit v
  else if k = "firmware version".toList then
    ⟨{ o with FirmwareVersion := v }, some LineParser.parseInfo, none⟩
  else if k = "user capacity".toList then
    parseInfoCapacity o v
  else if k = "sector sizes".toList then
    match parseInfoSectors (splitN v ", ".toList 2) o with
    | (o, some e) => ⟨o, none, some e⟩
    | (o, none) => ⟨updateBlocks o, some LineParser.parseInfo, none⟩
  else if k = "device is".toList then
    ⟨{ o with InSmartCtlDatabase := hasPrefix v "In smartctl database".toList },
      some LineParser.parseInfo, none⟩
  else if k = "ata Version is".toList then
    ⟨o, some LineParser.parseInfo, none⟩
  else if k = "local time is".toList then
    let o := { o with LocalTime := { o.LocalTime with AscTime := v } }
    match tl.parse v with
    | none => Step.fail o Site.localTime v
    | some t => ⟨{ o with LocalTime := { o.LocalTime with TimeT := t } },
        some LineParser.parseInfo, none⟩
  else ⟨o, some LineParser.parseInfo, none⟩

/-- Go `parseInfo`: the handler of the information section. -/
def parseInfo (tl : TimeLib) (o : Output) (l : Str) : Step :=
  if l = [] then ⟨o, none, none⟩
  else
    match splitN l ":".toList 2 with
    | [f0, f1] => parseInfoSwitch tl o (toLower (trimSpace f0)) (trimSpace f1)
    | _ => Step.fail o Site.infoSplit l

/-- Go `parseSMARTData`: the handler of the read-SMART-data section. -/
def parseSMARTData (o : Output) (l : Str) : Step :=
  if l = "Vendor Specific SMART Attributes with Thresholds:".toList then
    ⟨o, some (LineParser.parseSMARTAttrs none), none⟩
  else
    match splitN l ":".toList 2 with
    | [f0, f1] =>
      if f0 = "SMART overall-health self-assessment test result".toList then
        ⟨{ o with SMARTStatus := { o.SMARTStatus with
              Passed := equalFold (trimSpace f1) "PASSED".toList } },
          some LineParser.parseSMARTData, none⟩
      else ⟨o, some LineParser.parseSMARTData, none⟩
    | _ => ⟨o, some LineParser.parseSMARTData, none⟩

/-- Go `indices.allSet`. -/
def indices.allSet (i : indices) : Bool :=
  i.name != 0 && i.value != 0 && i.worst != 0 && i.threshold != 0 && i.raw_value != 0

/-- The six fields of `indices` that `fieldMap` points into. -/
inductive Column where
  | name | flag | raw_value | threshold | value | worst
  deriving DecidableEq, Repr

/-- The map `fieldMap` of `parseSMARTAttrs.Parse`: header word to the field
of `p.idx` it addresses (`none` is the nil pointer of a missing key). -/
def fieldMap (f : Str) : Option Column :=
  if f = "ATTRIBUTE_NAME".toList then some Column.name
  else if f = "FLAG".toList then some Column.flag
  else if f = "RAW_VALUE".toList then some Column.raw_value
  else if f = "THRESH".toList then some Column.threshold
  else if f = "VALUE".toList then some Column.value
  else if f = "WORST".toList then some Column.worst
  else none

/-- Reading through a `fieldMap` pointer: `*pi`. -/
def indices.get (ix : indices) : Column → Nat
  | Column.name => ix.name
  | Column.flag => ix.flag
  | Column.raw_value => ix.raw_value
  | Column.threshold => ix.threshold
  | Column.value => ix.value
  | Column.worst => ix.worst

/-- Writing through a `fieldMap` pointer: `*pi = i`. -/
def indices.set (ix : indices) (c : Column) (i : Nat) : indices :=
  match c with
  | Column.name => { ix with name := i }
  | Column.flag => { ix with flag := i }
  | Column.raw_value => { ix with raw_value := i }
  | Column.threshold => { ix with threshold := i }
  | Column.value => { ix with value := i }
  | Column.worst => { ix with worst := i }

/-- The loop `for i, f := range fs` over a header row, from position `i`:
the indices found, or the header word found twice. -/
def headerLoop : List Str → Nat → indices → Except Str indices
  | [], _, ix => Except.ok ix
  | f :: fs, i, ix =>
    match fieldMap f with
    | none => headerLoop fs (i + 1) ix
    | some c =>
      if ix.get c ≠ 0 then Except.error f
      else headerLoop fs (i + 1) (ix.set c i)

/-- The flag decoding at the end of `parseSMARTAttrs.Parse`. -/
def decodeFlags (n : Int) : SMARTAttributeFlags :=
  let bit (mask : Nat) : Bool := decide (and64 n mask ≠ 0)
  let ch (b : Bool) (c : Char) : Char := if b then c else '-'
  { Value := n
    Text := [ch (bit 0x0001) 'P', ch (bit 0x0002) 'O', ch (bit 0x0004) 'S',
             ch (bit 0x0008) 'R', ch (bit 0x0010) 'C', ch (bit 0x0020) 'K',
             if bit 0xffc0 then '+' else ' ']
    Prefailure := bit 0x0001
    UpdatedOnline := bit 0x0002
    Performance := bit 0x0004
    ErrorRate := bit 0x0008
    EventCount := bit 0x0010
    AutoKeep := bit 0x0020 }

/-- The data-row part of `parseSMARTAttrs.Parse` (after the header and nil
checks): the attribute to append, a parse error, or `none` for the panic of
an index beyond the row's fields. -/
def parseRow (ix : indices) (fs : List Str) : Option (Except Error SMARTAttribute) :=
  match fs[0]? with
  | none => none
  | some f0 =>
  match parseInt f0 0 32 with
  | none => some (Except.error (Error.parse Site.attrID f0))
  | some id =>
  match fs[ix.name]? with
  | none => none
  | some fname =>
  match fs[ix.value]? with
  | none => none
  | some fvalue =>
  match parseInt fvalue 0 32 with
  | none => some (Except.error (Error.parse Site.attrValue fvalue))
  | some value =>
  match fs[ix.worst]? with
  | none => none
  | some fworst =>
  match parseInt fworst 0 32 with
  | none => some (Except.error (Error.parse Site.attrWorst fworst))
  | some worst =>
  match fs[ix.threshold]? with
  | none => none
  | some fthresh =>
  match parseInt fthresh 0 32 with
  | none => some (Except.error (Error.parse Site.attrThreshold fthresh))
  | some thresh =>
  match fs[ix.raw_value]? with
  | none => none
  | some fraw =>
  match (splitN fraw " ".toList 2)[0]? with
  | none => none
  | some raw0 =>
  match parseInt raw0 10 64 with
  | none => some (Except.error (Error.parse Site.attrRaw raw0))
  | some raw =>
  match fs[ix.flag]? with
  | none => none
  | some fflag =>
  match parseInt fflag 0 32 with
  | none => some (Except.error (Error.parse Site.attrFlags fflag))
  | some flags =>
  some (Except.ok
    { ID := id, Name := toLower fname, Value := value, Worst := worst, Threshold := thresh
      Flags := decodeFlags flags, Raw := { Value := raw, Text := fraw } })

/-- The header branch of `parseSMARTAttrs.Parse` once `p.idx` was found nil:
`fs` are the fields of the line `l`. -/
def parseSMARTAttrsHeader (o : Output) (l : Str) (fs : List Str) : Step :=
  match headerLoop fs 0 {} with
  | Except.error f => Step.fail o Site.duplicateField f
  | Except.ok ix =>
    if ix.allSet = false then Step.fail o Site.incompleteHeader l
    else ⟨o, some (LineParser.parseSMARTAttrs (some ix)), none⟩

/-- The data-row branch of `parseSMARTAttrs.Parse` with `p.idx` pointing to
`ix`: `fs` are the fields of the line. -/
def parseSMARTAttrsRow (ix : indices) (o : Output) (fs : List Str) : Option Step :=
  match parseRow ix fs with
  | none => none
  | some (Except.error e) => some ⟨o, none, some e⟩
  | some (Except.ok a) =>
    some ⟨{ o with ATASMARTAttributes := { o.ATASMARTAttributes with
              Table := o.ATASMARTAttributes.Table ++ [a] } },
          some (LineParser.parseSMARTAttrs (some ix)), none⟩

/-- Go `(*parseSMARTAttrs).Parse`, the attribute table handler; `idx` is the
receiver's field `p.idx`.  `none` is a run-time panic. -/
def parseSMARTAttrs (idx : Option indices) (o : Output) (l : Str) : Option Step :=
  if l = [] then some ⟨o, none, none⟩
  else
    match (fields l)[0]? with
    | none => none
    | some f0 =>
      if f0 = "ID#".toList then
        match idx with
        | some _ => some (Step.fail o Site.repeatedHeader [])
        | none => some (parseSMARTAttrsHeader o l (fields l))
      else
        match idx with
        | none => some (Step.fail o Site.rowBeforeHeader l)
        | some ix => parseSMARTAttrsRow ix o (fields l)

/-- The `switch k` statement of `parseSmartCtl2Prom`, with `k` the lower-cased
key and `v` the trimmed value of the line. -/
def parseSmartCtl2PromSwitch (tl : TimeLib) (o : Output) (k v : Str) : Step :=
  if k = "device".toList then
    ⟨{ o with Device := { o.Device with Name := v } }, some LineParser.parseSmartCtl2Prom, none⟩
  else if k = "exit_code".toList then
    match parseInt v 10 8 with
    | none => Step.fail o Site.promExitCode v
    | some n => ⟨{ o with SmartCtl := { o.SmartCtl with ExitStatus := n } },
        some LineParser.parseSmartCtl2Prom, none⟩
  else if k = "timestamp".toList then
    match parseInt v 10 64 with
    | none => Step.fail o Site.promTimestamp v
    | some n =>
      if o.LocalTime.TimeT ≠ 0 then ⟨o, some LineParser.parseSmartCtl2Prom, none⟩
      else ⟨{ o with LocalTime := { TimeT := n, AscTime := tl.format n } },
        some LineParser.parseSmartCtl2Prom, none⟩
  else ⟨o, some LineParser.parseSmartCtl2Prom, none⟩

/-- Go `parseSmartCtl2Prom`: the handler of the injected-context section. -/
def parseSmartCtl2Prom (tl : TimeLib) (o : Output) (l : Str) : Step :=
  if l = [] then ⟨o, none, none⟩
  else
    match splitN l " ".toList 2 with
    | [f0, f1] => parseSmartCtl2PromSwitch tl o (toLower (trimSpace f0)) (trimSpace f1)
    | _ => Step.fail o Site.promSplit l

/-- Method call `parser.Parse(o, l)` on a non-nil `lineParser`. -/
def LineParser.Parse (tl : TimeLib) (p : LineParser) (o : Output) (l : Str) : Option Step :=
  match p with
  | LineParser.parseInfo => some (Smartctl2Prom.parseInfo tl o l)
  | LineParser.parseSMARTData => some (Smartctl2Prom.parseSMARTData o l)
  | LineParser.parseSmartCtl2Prom => some (Smartctl2Prom.parseSmartCtl2Prom tl o l)
  | LineParser.parseSMARTAttrs idx => Smartctl2Prom.parseSMARTAttrs idx o l

/-- The map `topParsers`: `none` when the line is not a key, `some none` for
the key `=== END ===` whose value is nil. -/
def topParsers (l : Str) : Option (Option LineParser) :=
  if l = "=== START OF INFORMATION SECTION ===".toList then some (some LineParser.parseInfo)
  else if l = "=== START OF READ SMART DATA SECTION ===".toList then
    some (some LineParser.parseSMARTData)
  else if l = "=== SMARTCTL2PROM ===".toList then some (some LineParser.parseSmartCtl2Prom)
  else if l = "=== END ===".toList then some none
  else none

/-! ## Input: `io.Reader` and `bufio.Reader` -/

/-- An `io.Reader` over a fixed byte stream that is not itself a
`*bufio.Reader`: `data` is what it has not delivered yet, and one `Read`
call delivers at most `chunk` bytes (at least one).  A `strings.Reader`, a
`bytes.Reader` or a regular file has `chunk` at least the buffer size; a
source that trickles input byte by byte has `chunk = 1`.  Sizes are counted
in characters, which is exact for ASCII input. -/
structure Reader where
  data : Str
  chunk : Nat
  deriving DecidableEq, Repr

/-- Go `Read(p)` with `len(p) = n > 0` on a reader with data left: the bytes
delivered and the reader afterwards. -/
def Reader.Read (rd : Reader) (n : Nat) : Str × Reader :=
  let k := min n (max rd.chunk 1)
  (rd.data.take k, { rd with data := rd.data.drop k })

/-- A `*bufio.Reader`: the bytes buffered and not yet consumed, and the
underlying reader. -/
structure BufReader where
  buf : Str
  rd : Reader
  deriving DecidableEq, Repr

/-- Size of the buffer of `bufio.NewReader`. -/
def defaultBufSize : Nat := 4096

/-- Go `bufio.NewReader(rd)` for an `rd` that is not a `*bufio.Reader`. -/
def NewReader (rd : Reader) : BufReader := ⟨[], rd⟩

/-- Splits after the first line feed: `none` when there is none. -/
def cutLine : Str → Option (Str × Str)
  | [] => none
  | c :: cs =>
    if c = '\n' then some ([c], cs)
    else (cutLine cs).map (fun p => (c :: p.1, p.2))

/-- The loop of `bufio.Reader.ReadString('\n')`: `acc` holds the full
buffers already collected.  Each round looks for the delimiter in the
buffer; failing that it reports `io.EOF` when the underlying reader is
exhausted, moves a full buffer to `acc`, or fills the free part of the
buffer with one `Read`. -/
def readStringGo : Nat → Str → Str → Reader → Str × Option Error × BufReader
  | 0, acc, buf, rd => (acc ++ buf, some Error.EOF, ⟨[], rd⟩)
  | fuel + 1, acc, buf, rd =>
    match cutLine buf with
    | some (line, rest) => (acc ++ line, none, ⟨rest, rd⟩)
    | none =>
      if rd.data = [] then (acc ++ buf, some Error.EOF, ⟨[], rd⟩)
      else if defaultBufSize ≤ buf.length then readStringGo fuel (acc ++ buf) [] rd
      else
        let cr := rd.Read (defaultBufSize - buf.length)
        readStringGo fuel acc (buf ++ cr.1) cr.2

/-- Go `r.ReadString('\n')`: the line with its line feed and no error, or
the rest of the input and `io.EOF`.  The loop makes at most two rounds for
each byte the underlying reader still holds, and one more. -/
def ReadString (r : BufReader) : Str × Option Error × BufReader :=
  readStringGo (2 * r.rd.data.length + 2) [] r.buf r.rd

/-! ## The text-report parser `parseSMARTCtl` -/

/-- How a modelled call ends. -/
inductive Run (α : Type) where
  | ret (a : α)   -- the call returned `a`
  | panic         -- a run-time panic
  | fuel          -- the step budget of the model ran out
  deriving DecidableEq, Repr

/-- The loop at the end of `parseSMARTCtl` that copies attribute 9, 12 and
194 into the derived fields. -/
def postPass (o : Output) : Output :=
  o.ATASMARTAttributes.Table.foldl (fun o a =>
    if a.ID = 9 then { o with PowerOnTime := { o.PowerOnTime with Hours := a.Raw.Value } }
    else if a.ID = 12 then { o with PowerCycleCount := a.Raw.Value }
    else if a.ID = 194 then
      { o with Temperature := { o.Temperature with Current := and64 a.Raw.Value 0x00000000ffff } }
    else o) o

/-- The `for done, input := false, false; !done;` loop of `parseSMARTCtl`,
entered with `done = false`; `readString` is the method `r.ReadString('\n')`
of the reader `r`.  The result is the reader, the record and the error with
which the function leaves the loop (`none`: the loop ended, the post-pass is
next). -/
def parseLoop {ρ : Type} (readString : ρ → Str × Option Error × ρ) (tl : TimeLib) :
    Nat → ρ → Option LineParser → Bool → Output → Run (ρ × Output × Option Error)
  | 0, _, _, _, _ => Run.fuel
  | fuel + 1, r, parser, input, o =>
    match readString r with
    | (l, err, r) =>
      if err.isSome ∧ (err ≠ some Error.EOF ∨ input = false) then Run.ret (r, o, err)
      else
        let done := err.isSome
        let l := trimSpace l
        match parser with
        | none =>
          let found := topParsers l
          if done = true ∨ found = some none then Run.ret (r, o, none)
          else parseLoop readString tl fuel r (found.getD none) true o
        | some p =>
          match p.Parse tl o l with
          | none => Run.panic
          | some st =>
            if st.err.isSome then Run.ret (r, st.o, st.err)
            else if done = true then Run.ret (r, st.o, none)
            else parseLoop readString tl fuel r st.next true st.o

/-- The end of `parseSMARTCtl`: the post-pass runs when the loop ended without
an error. -/
def finish {ρ : Type} : Run (ρ × Output × Option Error) → Run (ρ × Output × Option Error)
  | Run.ret (r, o, none) => Run.ret (r, postPass o, none)
  | res => res

/-- The bytes a `*bufio.Reader` still delivers: its buffer, then what the
underlying reader holds. -/
def BufReader.rest (r : BufReader) : Str := r.buf ++ r.rd.data

/-- Go `parseSMARTCtl(r, o)`: the reader and the record as the call leaves
them, and the returned error.  The loop runs once for every line of the input
and once more at its end. -/
def parseSMARTCtl (tl : TimeLib) (r : BufReader) (o : Output) :
    Run (BufReader × Output × Option Error) :=
  finish (parseLoop ReadString tl (r.rest.length + 1) r none false o)

/-- What `ReadString('\n')` does to the byte sequence a reader delivers,
whatever way the bytes are buffered. -/
def readLine (s : Str) : Str × Option Error × Str :=
  match cutLine s with
  | some (line, rest) => (line, none, rest)
  | none => (s, some Error.EOF, [])

/-- `parseSMARTCtl` on the byte sequence its reader delivers: the bytes left
unread, the record and the returned error. -/
def parseText (tl : TimeLib) (s : Str) (o : Output) : Run (Str × Output × Option Error) :=
  finish (parseLoop readLine tl (s.length + 1) s none false o)

/-- Applies a function to the value a call returned. -/
def Run.map {α β : Type} (f : α → β) : Run α → Run β
  | Run.ret a => Run.ret (f a)
  | Run.panic => Run.panic
  | Run.fuel => Run.fuel

/-! ## The streaming driver (`smartctldata/decode.go`) -/

/-- Go `OutputOrError`; `none` is a nil pointer, respectively a nil error. -/
structure OutputOrError where
  O : Option Output
  Err : Option Error
  deriving DecidableEq, Repr

/-- How the producer goroutine of `Decode` ends. -/
inductive ChanEnd where
  | closed   -- `close(ch)`
  | panic    -- the decoder panicked
  | fuel     -- the step budget of the model ran out
  deriving DecidableEq, Repr

/-- Go `Decode(r, decoder)`: the items sent on the channel, in order, and how
the producer ended.  `decoder r o` gives the reader and the record as the
call leaves them and the error it returns. -/
def Decode {R : Type} (decoder : R → Output → Run (R × Output × Option Error)) :
    Nat → R → List OutputOrError × ChanEnd
  | 0, _ => ([], ChanEnd.fuel)
  | fuel + 1, r =>
    match decoder r {} with
    | Run.panic => ([], ChanEnd.panic)
    | Run.fuel => ([], ChanEnd.fuel)
    | Run.ret (r, o, err) =>
      if err = some Error.EOF then ([], ChanEnd.closed)
      else
        let sent : List OutputOrError :=
          (if err ≠ none then [⟨none, err⟩] else []) ++ [⟨some o, none⟩]
        let rest := Decode decoder fuel r
        (sent ++ rest.1, rest.2)

/-- The decoder closure of `DecodeText`: a new `bufio.Reader` around `r` for
every call; what that reader has buffered when `parseSMARTCtl` returns is
dropped with it. -/
def textDecoder (tl : TimeLib) (r : Reader) (o : Output) : Run (Reader × Output × Option Error) :=
  match parseSMARTCtl tl (NewReader r) o with
  | Run.ret (br, o, err) => Run.ret (br.rd, o, err)
  | Run.panic => Run.panic
  | Run.fuel => Run.fuel

/-- Go `DecodeText(r)`.  Every decoder call that does not end the stream
consumes at least one byte, so the loop runs at most once per byte and once
more. -/
def DecodeText (tl : TimeLib) (r : Reader) : List OutputOrError × ChanEnd :=
  Decode (textDecoder tl) (r.data.length + 1) r

/-! ## The raw-value interpreter (`readRawValue` in `smartctl2prom.go`) -/

/-- Go `readRawValue(a, raw)`: the integer handed to `raw.Set`, before its
conversion to `float64`. -/
def readRawValue (a : SMARTAttribute) : Int :=
  let rawValue := a.Raw.Value
  if a.ID = 194 then
    if rawValue ≤ 0x00ffff then rawValue
    else if rawValue ≤ 0xffffffffffff ∧ rawValue > 0x0000ffffffff then and64 rawValue 0x00000000ffff
    else rawValue
  else rawValue

/-! ## Inputs and reference definitions used in the statements -/

/-- A minimal text report: an information section with model, serial number
and capacity, a read-SMART-data section whose attribute table has the one
row of attribute 9 with raw value 1234, and the end marker.  Sections and the
table are closed by a blank line, as smartctl prints them. -/
def minimalReport : Str :=
  ("=== START OF INFORMATION SECTION ===\n" ++
   "Device Model: X\n" ++
   "Serial Number: Y\n" ++
   "User Capacity: 1,000 bytes [1 kB]\n" ++
   "\n" ++
   "=== START OF READ SMART DATA SECTION ===\n" ++
   "Vendor Specific SMART Attributes with Thresholds:\n" ++
   "ID# ATTRIBUTE_NAME FLAG VALUE WORST THRESH RAW_VALUE\n" ++
   "  9 Power_On_Hours 0x0032 100 100 000 1234\n" ++
   "\n" ++
   "=== END ===\n").toList

/-- The minimal report with the `VALUE` column missing from the header of
its attribute table. -/
def reportWithoutValue : Str :=
  ("=== START OF INFORMATION SECTION ===\n" ++
   "Device Model: X\n" ++
   "\n" ++
   "=== START OF READ SMART DATA SECTION ===\n" ++
   "Vendor Specific SMART Attributes with Thresholds:\n" ++
   "ID# ATTRIBUTE_NAME FLAG WORST THRESH RAW_VALUE\n" ++
   "  9 Power_On_Hours 0x0032 100 000 1234\n" ++
   "\n" ++
   "=== END ===\n").toList

/-- The values of `time.Parse` and `Time.Format` with the layout
`smartCtlDate` on the two timestamps used in the examples below, on a host
whose local zone is UTC; `none`/empty elsewhere. -/
def sampleTime : TimeLib where
  parse v :=
    if v = "Sun Jun 30 18:34:45 2019 UTC".toList then some 1561919685
    else if v = "Mon Jul  1 16:57:20 2019 UTC".toList then some 1562000240
    else none
  format n :=
    if n = 1561919685 then "Sun Jun 30 18:34:45 2019 UTC".toList
    else if n = 1562000240 then "Mon Jul  1 16:57:20 2019 UTC".toList
    else []

/-- The header word of each column that `fieldMap` knows. -/
def Column.header : Column → Str
  | Column.name => "ATTRIBUTE_NAME".toList
  | Column.flag => "FLAG".toList
  | Column.raw_value => "RAW_VALUE".toList
  | Column.threshold => "THRESH".toList
  | Column.value => "VALUE".toList
  | Column.worst => "WORST".toList

/-- The six column names that follow `ID#` in the canonical header, in the
canonical order. -/
def canonicalColumns : List Str :=
  ["ATTRIBUTE_NAME".toList, "FLAG".toList, "VALUE".toList, "WORST".toList, "THRESH".toList,
   "RAW_VALUE".toList]

/-- Feeding the lines of an attribute table, one after the other, to the
attribute table handler whose `idx` is `idx`, as the loop of `parseSMARTCtl`
does while the handler stays in charge: the last step made.  Feeding stops at
the first error, at a panic (`none`) or when the handler hands control back. -/
def runTable : Option indices → Output → List Str → Option Step
  | idx, o, [] => some ⟨o, some (LineParser.parseSMARTAttrs idx), none⟩
  | idx, o, l :: ls =>
    match parseSMARTAttrs idx o l with
    | none => none
    | some st =>
      if st.err.isSome then some st
      else
        match st.next with
        | some (LineParser.parseSMARTAttrs idx1) => runTable idx1 st.o ls
        | _ => some st

/-- The fields of the sample data row (attribute 9, raw value 1234), by
column name. -/
def sampleRow (column : Str) : Str :=
  if column = "ATTRIBUTE_NAME".toList then "Power_On_Hours".toList
  else if column = "FLAG".toList then "0x0032".toList
  else if column = "VALUE".toList then "100".toList
  else if column = "WORST".toList then "100".toList
  else if column = "THRESH".toList then "000".toList
  else "1234".toList

/-- A decimal digit `0`-`9`. -/
def isDigit (c : Char) : Bool := decide (48 ≤ c.toNat) && decide (c.toNat ≤ 57)

/-- The number a string of decimal digits denotes. -/
def decVal (ds : Str) : Nat := ds.foldl (fun a c => a * 10 + (c.toNat - 48)) 0

/-- A decimal integer as text: an optional sign followed by one or more
decimal digits. -/
def DecimalInt (s : Str) : Prop :=
  ∃ sign ds : Str, s = sign ++ ds ∧ (sign = [] ∨ sign = ['+'] ∨ sign = ['-']) ∧ ds ≠ [] ∧
    ∀ c ∈ ds, isDigit c = true

/-- The header row of the attribute table as smartctl prints it. -/
def smartctlHeader : Str :=
  "ID# ATTRIBUTE_NAME          FLAG     VALUE WORST THRESH TYPE      UPDATED  WHEN_FAILED RAW_VALUE".toList

/-- A report whose attribute table has a data row cut short after the
attribute name. -/
def shortRowReport : Str :=
  ("=== START OF READ SMART DATA SECTION ===\n" ++
   "Vendor Specific SMART Attributes with Thresholds:\n" ++
   "ID# ATTRIBUTE_NAME FLAG VALUE WORST THRESH RAW_VALUE\n" ++
   "  9 Power_On_Hours\n" ++
   "\n" ++
   "=== END ===\n").toList

/-- The last entry of a table that carries the given attribute ID. -/
def lastWithID (id : Int) (table : List SMARTAttribute) : Option SMARTAttribute :=
  (table.filter (fun a => decide (a.ID = id))).getLast?

/-- The body of the post-pass loop, for one table entry. -/
def postPassStep (o : Output) (a : SMARTAttribute) : Output :=
  if a.ID = 9 then { o with PowerOnTime := { o.PowerOnTime with Hours := a.Raw.Value } }
  else if a.ID = 12 then { o with PowerCycleCount := a.Raw.Value }
  else if a.ID = 194 then
    { o with Temperature := { o.Temperature with Current := and64 a.Raw.Value 0x00000000ffff } }
  else o

/-- The three derived fields of a record. -/
def derivedFields (o : Output) : PowerOnTime × Int × Temperature :=
  (o.PowerOnTime, o.PowerCycleCount, o.Temperature)

/-- The record decoded from `minimalReport`. -/
def minimalRecord : Output :=
  { ModelName := "X".toList
    SerialNumber := "Y".toList
    UserCapacity := { Bytes := 1000 }
    ATASMARTAttributes := { Table :=
      [{ ID := 9, Name := "power_on_hours".toList, Value := 100, Worst := 100, Threshold := 0,
         Flags := decodeFlags 0x0032, Raw := { Value := 1234, Text := "1234".toList } }] }
    PowerOnTime := { Hours := 1234 } }

/-- A complete line as `ReadString('\n')` returns it: text without a line
feed, followed by one line feed. -/
abbrev IsLine (x : Str) : Prop := cutLine x = some (x, [])

/-- The input made of the given lines, one after the other. -/
def joinLines : List Str → Str
  | [] => []
  | x :: xs => x ++ joinLines xs

/-- The state of the loop of `parseSMARTCtl` after it has read the given
complete lines, started with the handler `parser` (`none` is nil, the level-1
dispatch) and the record `o`: the handler in charge and the record.  The
result is `none` when the loop has been left before the end of the lines: by
`=== END ===` at level 1, by an error or by a panic. -/
def loopState (tl : TimeLib) : List Str → Option LineParser → Output →
    Option (Option LineParser × Output)
  | [], parser, o => some (parser, o)
  | x :: xs, none, o =>
    if topParsers (trimSpace x) = some none then none
    else loopState tl xs ((topParsers (trimSpace x)).getD none) o
  | x :: xs, some p, o =>
    match p.Parse tl o (trimSpace x) with
    | none => none
    | some st => if st.err.isSome then none else loopState tl xs st.next st.o

/-- The line that reports the overall health. -/
def healthLine : Str := "SMART overall-health self-assessment test result: PASSED".toList

/-- A report whose health-result line follows the attribute table. -/
def healthAfterTableReport : Str :=
  ("=== START OF READ SMART DATA SECTION ===\n" ++
   "Vendor Specific SMART Attributes with Thresholds:\n" ++
   "ID# ATTRIBUTE_NAME FLAG VALUE WORST THRESH RAW_VALUE\n" ++
   "  9 Power_On_Hours 0x0032 100 100 000 1234\n" ++
   "\n" ++
   "SMART overall-health self-assessment test result: PASSED\n" ++
   "\n" ++
   "=== END ===\n").toList

/-- A report with `=== END ===` inside its information section. -/
def endInInfoReport : Str :=
  ("=== START OF INFORMATION SECTION ===\n" ++
   "Device Model: X\n" ++
   "=== END ===\n").toList

/-- A report with `=== END ===` inside its read-SMART-data section, followed
by a health-result line. -/
def endInDataReport : Str :=
  ("=== START OF READ SMART DATA SECTION ===\n" ++
   "=== END ===\n" ++
   "SMART overall-health self-assessment test result: PASSED\n").toList

/-- A hexadecimal digit: `0`-`9`, `a`-`f` or `A`-`F`. -/
def isHexDigit (c : Char) : Bool :=
  (decide (48 ≤ c.toNat) && decide (c.toNat ≤ 57)) ||
  (decide (97 ≤ c.toNat) && decide (c.toNat ≤ 102)) ||
  (decide (65 ≤ c.toNat) && decide (c.toNat ≤ 70))

/-- The value of a hexadecimal digit. -/
def hexDigit (c : Char) : Nat :=
  if c.toNat ≤ 57 then c.toNat - 48 else if c.toNat ≤ 70 then c.toNat - 55 else c.toNat - 87

/-- The number a string of hexadecimal digits denotes. -/
def hexVal (ds : Str) : Nat := ds.foldl (fun a c => a * 16 + hexDigit c) 0

/-- A hexadecimal integer as text: an optional sign followed by one or more
hexadecimal digits. -/
def HexInt (s : Str) : Prop :=
  ∃ sign ds : Str, s = sign ++ ds ∧ (sign = [] ∨ sign = ['+'] ∨ sign = ['-']) ∧ ds ≠ [] ∧
    ∀ c ∈ ds, isHexDigit c = true

/-- The case labels of the switch in `parseInfo` whose body does something;
the remaining label `ata Version is` has an empty body. -/
def infoKeys : List Str :=
  ["model family".toList, "device model".toList, "serial number".toList,
   "lu wwn device id".toList, "firmware version".toList, "user capacity".toList,
   "sector sizes".toList, "device is".toList, "local time is".toList]

/-- The raw-value interpreter as the specification words it: for attribute
194 a value up to `0xFFFF` is exposed as it is, a value above `0xFFFFFFFF` and
up to `0xFFFFFFFFFFFF` is reduced to its low 16 bits, any other value is
exposed unchanged; for every other attribute the value is exposed unchanged. -/
def readRawValue_spec (id v : Int) : Int :=
  if id = 194 ∧ v ≤ 0xFFFF then v
  else if id = 194 ∧ 0xFFFFFFFF < v ∧ v ≤ 0xFFFFFFFFFFFF then v % 2 ^ 16
  else v

/-! ## Lemmas on reading lines -/

theorem cutLine_cons (c : Char) (cs : Str) :
    cutLine (c :: cs) =
      if c = '\n' then some ([c], cs) else (cutLine cs).map (fun p => (c :: p.1, p.2)) := rfl

theorem cutLine_append_of_some {a l r : Str} (b : Str) (h : cutLine a = some (l, r)) :
    cutLine (a ++ b) = some (l, r ++ b) := by
  induction a generalizing l r with
  | nil => simp [cutLine] at h
  | cons c cs ih =>
    rw [List.cons_append, cutLine_cons]
    rw [cutLine_cons] at h
    by_cases hc : c = '\n'
    · simp only [hc, if_true, Option.some.injEq, Prod.mk.injEq] at h ⊢
      exact ⟨h.1, by rw [← h.2]⟩
    · simp only [hc, if_false] at h ⊢
      cases hcs : cutLine cs with
      | none => simp [hcs] at h
      | some p =>
        obtain ⟨pl, pr⟩ := p
        simp only [hcs, Option.map_some', Option.some.injEq, Prod.mk.injEq] at h
        rw [ih hcs]
        simp [h.1, h.2]

theorem cutLine_append_of_none {a : Str} (b : Str) (h : cutLine a = none) :
    cutLine (a ++ b) = (cutLine b).map (fun p => (a ++ p.1, p.2)) := by
  induction a with
  | nil => cases hb : cutLine b <;> simp [hb]
  | cons c cs ih =>
    rw [List.cons_append, cutLine_cons]
    rw [cutLine_cons] at h
    by_cases hc : c = '\n'
    · simp [hc] at h
    · simp only [hc, if_false] at h ⊢
      cases hcs : cutLine cs with
      | some p => simp [hcs] at h
      | none =>
        rw [ih hcs]
        cases cutLine b <;> simp

theorem readLine_append_of_none {a : Str} (b : Str) (h : cutLine a = none) :
    readLine (a ++ b) = (a ++ (readLine b).1, (readLine b).2.1, (readLine b).2.2) := by
  unfold readLine
  rw [cutLine_append_of_none b h]
  cases cutLine b with
  | none => simp
  | some p => simp

theorem readLine_append_of_some {a l r : Str} (b : Str) (h : cutLine a = some (l, r)) :
    readLine (a ++ b) = (l, none, r ++ b) := by
  unfold readLine
  rw [cutLine_append_of_some b h]

theorem readStringGo_spec (fuel : Nat) : ∀ (acc buf : Str) (rd : Reader),
    2 * rd.data.length + (if defaultBufSize ≤ buf.length then 1 else 0) < fuel →
    ∃ r, readStringGo fuel acc buf rd
          = (acc ++ (readLine (buf ++ rd.data)).1, (readLine (buf ++ rd.data)).2.1, r) ∧
        r.rest = (readLine (buf ++ rd.data)).2.2 ∧ r.rd.chunk = rd.chunk ∧
        r.rd.data.length ≤ rd.data.length := by
  induction fuel with
  | zero => intro acc buf rd h; omega
  | succ fuel ih =>
    intro acc buf rd hf
    unfold readStringGo
    cases hcb : cutLine buf with
    | some p =>
      obtain ⟨line, rest⟩ := p
      refine ⟨⟨rest, rd⟩, ?_, ?_, rfl, le_refl _⟩
      · simp [readLine_append_of_some rd.data hcb]
      · simp [readLine_append_of_some rd.data hcb, BufReader.rest]
    | none =>
      simp only []
      by_cases hd : rd.data = []
      · refine ⟨⟨[], rd⟩, ?_, ?_, rfl, le_refl _⟩
        · simp [hd, readLine, hcb]
        · simp [hd, readLine, hcb, BufReader.rest]
      · have hlen : 0 < rd.data.length := List.length_pos.mpr hd
        rw [if_neg hd]
        by_cases hfull : defaultBufSize ≤ buf.length
        · rw [if_pos hfull]
          rw [if_pos hfull] at hf
          have hz : ¬ (defaultBufSize ≤ ([] : Str).length) := by simp [defaultBufSize]
          obtain ⟨r, h1, h2, h3, h4⟩ := ih (acc ++ buf) [] rd (by
            rw [if_neg hz]; omega)
          refine ⟨r, ?_, ?_, h3, h4⟩
          · rw [h1, readLine_append_of_none rd.data hcb]; simp
          · rw [h2, readLine_append_of_none rd.data hcb]; simp
        · rw [if_neg hfull]
          rw [if_neg hfull] at hf
          have hk : 1 ≤ min (defaultBufSize - buf.length) (max rd.chunk 1) := by
            have : 1 ≤ defaultBufSize - buf.length := by omega
            have : 1 ≤ max rd.chunk 1 := le_max_right _ _
            exact le_min ‹_› ‹_›
          obtain ⟨r, h1, h2, h3, h4⟩ := ih acc
            (buf ++ (rd.Read (defaultBufSize - buf.length)).1)
            (rd.Read (defaultBufSize - buf.length)).2 (by
              simp only [Reader.Read, List.length_drop]
              split <;> omega)
          have happ : (buf ++ (rd.Read (defaultBufSize - buf.length)).1) ++
              (rd.Read (defaultBufSize - buf.length)).2.data = buf ++ rd.data := by
            simp [Reader.Read, List.append_assoc]
          rw [happ] at h1 h2
          refine ⟨r, h1, h2, ?_, ?_⟩
          · rw [h3]; rfl
          · refine le_trans h4 ?_
            simp [Reader.Read]

theorem ReadString_spec (r : BufReader) :
    ∃ r1, ReadString r = ((readLine r.rest).1, (readLine r.rest).2.1, r1) ∧
      r1.rest = (readLine r.rest).2.2 ∧ r1.rd.chunk = r.rd.chunk ∧
      r1.rd.data.length ≤ r.rd.data.length := by
  obtain ⟨r1, h1, h2, h3, h4⟩ := readStringGo_spec (2 * r.rd.data.length + 2) [] r.buf r.rd
    (by split <;> omega)
  exact ⟨r1, by simpa [ReadString, BufReader.rest] using h1, h2, h3, h4⟩

theorem finish_map {α β : Type} (f : α → β) (x : Run (α × Output × Option Error)) :
    (finish x).map (fun a => (f a.1, a.2)) = finish (x.map (fun a => (f a.1, a.2))) := by
  cases x with
  | panic => rfl
  | fuel => rfl
  | ret a =>
    obtain ⟨r, o, e⟩ := a
    cases e <;> rfl

theorem parseLoop_rest (tl : TimeLib) (fuel : Nat) :
    ∀ (r : BufReader) (p : Option LineParser) (i : Bool) (o : Output),
    (parseLoop ReadString tl fuel r p i o).map (fun a => (a.1.rest, a.2))
      = parseLoop readLine tl fuel r.rest p i o := by
  induction fuel with
  | zero => intro r p i o; rfl
  | succ fuel ih =>
    intro r p i o
    obtain ⟨r1, h1, h2, _, _⟩ := ReadString_spec r
    unfold parseLoop
    rw [h1]
    generalize readLine r.rest = x at h2
    obtain ⟨l, e, s⟩ := x
    simp only [] at h2 ⊢
    cases p with
    | none =>
      simp only []
      split_ifs <;> first | (simp [Run.map, h2]; done) | (rw [ih, h2])
    | some q =>
      simp only []
      cases q.Parse tl o (trimSpace l) with
      | none => split_ifs <;> simp [Run.map, h2]
      | some st =>
        simp only []
        split_ifs <;> first | (simp [Run.map, h2]; done) | (rw [ih, h2])

/-- The record and error `parseSMARTCtl` leaves depend only on the bytes its
reader delivers, not on how they are buffered. -/
theorem parseSMARTCtl_rest (tl : TimeLib) (r : BufReader) (o : Output) :
    (parseSMARTCtl tl r o).map (fun a => (a.1.rest, a.2)) = parseText tl r.rest o := by
  unfold parseSMARTCtl parseText
  rw [finish_map, parseLoop_rest]

/-! ## No handler returns `io.EOF` -/

theorem parseLoop_succ {ρ : Type} (rs : ρ → Str × Option Error × ρ) (tl : TimeLib) (fuel : Nat)
    (r : ρ) (parser : Option LineParser) (input : Bool) (o : Output) :
    parseLoop rs tl (fuel + 1) r parser input o =
      if (rs r).2.1.isSome ∧ ((rs r).2.1 ≠ some Error.EOF ∨ input = false) then
        Run.ret ((rs r).2.2, o, (rs r).2.1)
      else
        match parser with
        | none =>
          if (rs r).2.1.isSome = true ∨ topParsers (trimSpace (rs r).1) = some none then
            Run.ret ((rs r).2.2, o, none)
          else parseLoop rs tl fuel (rs r).2.2 ((topParsers (trimSpace (rs r).1)).getD none) true o
        | some p =>
          match p.Parse tl o (trimSpace (rs r).1) with
          | none => Run.panic
          | some st =>
            if st.err.isSome then Run.ret ((rs r).2.2, st.o, st.err)
            else if (rs r).2.1.isSome = true then Run.ret ((rs r).2.2, st.o, none)
            else parseLoop rs tl fuel (rs r).2.2 st.next true st.o := by
  rw [parseLoop]

theorem finish_err {ρ : Type} {x : Run (ρ × Output × Option Error)} {a : ρ × Output × Option Error}
    (h : finish x = Run.ret a) : ∃ b, x = Run.ret b ∧ b.2.2 = a.2.2 := by
  cases x with
  | fuel => simp [finish] at h
  | panic => simp [finish] at h
  | ret b =>
    obtain ⟨r, o, e⟩ := b
    cases e with
    | none =>
      simp only [finish, Run.ret.injEq] at h
      exact ⟨_, rfl, by rw [← h]⟩
    | some e =>
      simp only [finish, Run.ret.injEq] at h
      exact ⟨_, rfl, by rw [← h]⟩

theorem fieldMap_header (c : Column) : fieldMap c.header = some c := by
  cases c <;> decide

theorem fieldMap_eq_some {f : Str} {c : Column} (h : fieldMap f = some c) : f = c.header := by
  unfold fieldMap at h
  by_cases h1 : f = "ATTRIBUTE_NAME".toList
  · rw [if_pos h1] at h; cases h; exact h1
  rw [if_neg h1] at h
  by_cases h2 : f = "FLAG".toList
  · rw [if_pos h2] at h; cases h; exact h2
  rw [if_neg h2] at h
  by_cases h3 : f = "RAW_VALUE".toList
  · rw [if_pos h3] at h; cases h; exact h3
  rw [if_neg h3] at h
  by_cases h4 : f = "THRESH".toList
  · rw [if_pos h4] at h; cases h; exact h4
  rw [if_neg h4] at h
  by_cases h5 : f = "VALUE".toList
  · rw [if_pos h5] at h; cases h; exact h5
  rw [if_neg h5] at h
  by_cases h6 : f = "WORST".toList
  · rw [if_pos h6] at h; cases h; exact h6
  rw [if_neg h6] at h
  cases h

theorem header_injective {c d : Column} (h : c.header = d.header) : c = d := by
  have h1 := fieldMap_header c
  rw [h, fieldMap_header] at h1
  exact (Option.some.inj h1).symm

theorem get_set_same (ix : indices) (c : Column) (i : Nat) : (ix.set c i).get c = i := by
  cases c <;> rfl

theorem get_set_other (ix : indices) {c d : Column} (i : Nat) (h : c ≠ d) :
    (ix.set d i).get c = ix.get c := by
  cases c <;> cases d <;> first | rfl | exact absurd rfl h

theorem headerLoop_cons (f : Str) (fs : List Str) (i : Nat) (ix : indices) :
    headerLoop (f :: fs) i ix =
      match fieldMap f with
      | none => headerLoop fs (i + 1) ix
      | some c => if ix.get c ≠ 0 then Except.error f else headerLoop fs (i + 1) (ix.set c i) :=
  rfl

/-- What an accepted header loop says about the row it scanned from position
`i ≥ 1` on: a column unset before occurs at most once, and exactly once when
it is set afterwards; a column set before does not occur. -/
theorem headerLoop_count (fs : List Str) : ∀ (i : Nat) (ix ix1 : indices), 1 ≤ i →
    headerLoop fs i ix = Except.ok ix1 → ∀ c : Column,
      (ix.get c = 0 → fs.count c.header ≤ 1 ∧ (ix1.get c ≠ 0 → fs.count c.header = 1)) ∧
      (ix.get c ≠ 0 → fs.count c.header = 0 ∧ ix1.get c = ix.get c) := by
  induction fs with
  | nil =>
    intro i ix ix1 _ h c
    simp only [headerLoop, Except.ok.injEq] at h
    subst h
    simp
  | cons f fs ih =>
    intro i ix ix1 hi h c
    rw [headerLoop_cons] at h
    cases hf : fieldMap f with
    | none =>
      rw [hf] at h
      simp only [] at h
      have hne : c.header ≠ f := by
        intro e; rw [← e, fieldMap_header] at hf; cases hf
      rw [List.count_cons_of_ne hne]
      exact ih _ _ _ (by omega) h c
    | some d =>
      rw [hf] at h
      simp only [] at h
      have hfd : f = d.header := fieldMap_eq_some hf
      by_cases hd : ix.get d ≠ 0
      · rw [if_pos hd] at h; cases h
      · rw [if_neg hd] at h
        have hd0 : ix.get d = 0 := by simpa using hd
        have hrec := ih _ _ _ (by omega : 1 ≤ i + 1) h
        by_cases hcd : c = d
        · subst hcd
          have hset : (ix.set c i).get c ≠ 0 := by rw [get_set_same]; omega
          have h2 := (hrec c).2 hset
          rw [hfd, List.count_cons_self, h2.1]
          refine ⟨fun _ => ⟨le_refl _, fun _ => rfl⟩, fun hc => absurd hd0 hc⟩
        · have hne : c.header ≠ f := by
            intro e; rw [hfd] at e; exact hcd (header_injective e)
          rw [List.count_cons_of_ne hne]
          have hg : (ix.set d i).get c = ix.get c := get_set_other ix i hcd
          have h2 := hrec c
          rw [hg] at h2
          exact h2

/-- A row of distinct column names, none of them set before, is accepted from
position `i` on, and every column named in it gets its position. -/
theorem headerLoop_nodup (fs : List Str) : ∀ (i : Nat) (ix : indices), fs.Nodup →
    (∀ f ∈ fs, ∃ c, fieldMap f = some c ∧ ix.get c = 0) →
    ∃ ix1, headerLoop fs i ix = Except.ok ix1 ∧
      ∀ c : Column,
        (c.header ∈ fs → ∃ k, ix1.get c = i + k ∧ fs[k]? = some c.header) ∧
        (c.header ∉ fs → ix1.get c = ix.get c) := by
  induction fs with
  | nil =>
    intro i ix _ _
    exact ⟨ix, rfl, fun c => by simp⟩
  | cons f fs ih =>
    intro i ix hnd hall
    obtain ⟨d, hfd, hd0⟩ := hall f (List.mem_cons_self _ _)
    have hf : f = d.header := fieldMap_eq_some hfd
    rw [headerLoop_cons, hfd]
    simp only []
    rw [if_neg (by simpa using hd0)]
    have hnd' := List.nodup_cons.mp hnd
    obtain ⟨ix1, h1, h2⟩ := ih (i + 1) (ix.set d i) hnd'.2 (by
      intro g hg
      obtain ⟨c, hgc, hc0⟩ := hall g (List.mem_cons_of_mem _ hg)
      refine ⟨c, hgc, ?_⟩
      have hcd : c ≠ d := by
        intro e
        subst e
        have : g = f := by rw [fieldMap_eq_some hgc, hf]
        exact hnd'.1 (this ▸ hg)
      rw [get_set_other ix i hcd]; exact hc0)
    refine ⟨ix1, h1, fun c => ?_⟩
    by_cases hcd : c = d
    · subst hcd
      have hnot : c.header ∉ fs := by rw [← hf]; exact hnd'.1
      refine ⟨fun _ => ⟨0, ?_, ?_⟩, fun hn => absurd (by rw [← hf]; exact List.mem_cons_self _ _) hn⟩
      · rw [(h2 c).2 hnot, get_set_same]; rfl
      · simp [hf]
    · have hne : f ≠ c.header := by
        intro e; rw [hf] at e; exact hcd (header_injective e.symm)
      constructor
      · intro hm
        have hmem : c.header ∈ fs := by
          rcases List.mem_cons.mp hm with e | e
          · exact absurd e.symm hne
          · exact e
        obtain ⟨k, hk1, hk2⟩ := (h2 c).1 hmem
        exact ⟨k + 1, by rw [hk1]; omega, by simpa using hk2⟩
      · intro hn
        have hmem : c.header ∉ fs := fun e => hn (List.mem_cons_of_mem _ e)
        rw [(h2 c).2 hmem, get_set_other ix i hcd]

theorem mem_canonicalColumns {f : Str} (h : f ∈ canonicalColumns) : ∃ c : Column, f = c.header := by
  simp only [canonicalColumns, List.mem_cons, List.mem_singleton, List.not_mem_nil, or_false] at h
  rcases h with h | h | h | h | h | h
  · exact ⟨Column.name, h⟩
  · exact ⟨Column.flag, h⟩
  · exact ⟨Column.value, h⟩
  · exact ⟨Column.worst, h⟩
  · exact ⟨Column.threshold, h⟩
  · exact ⟨Column.raw_value, h⟩

theorem header_mem_canonicalColumns (c : Column) : c.header ∈ canonicalColumns := by
  cases c <;> decide

theorem indices_default_get (c : Column) : ({} : indices).get c = 0 := by
  cases c <;> rfl

/-- A header row `ID#` followed by the six column names in any order is
accepted, and the indices found locate each column's field in every data row
laid out in that order. -/
theorem headerLoop_shuffled {σ : List Str} (hσ : σ.Perm canonicalColumns) :
    ∃ ix, headerLoop ("ID#".toList :: σ) 0 {} = Except.ok ix ∧ ix.allSet = true ∧
      ∀ (f : Str → Str) (id : Str) (c : Column),
        (id :: σ.map f)[ix.get c]? = some (f c.header) := by
  have hnd : σ.Nodup := hσ.nodup_iff.mpr (by decide)
  obtain ⟨ix, h1, h2⟩ := headerLoop_nodup σ 1 {} hnd (by
    intro f hf
    obtain ⟨c, hc⟩ := mem_canonicalColumns (hσ.mem_iff.mp hf)
    exact ⟨c, by rw [hc, fieldMap_header], indices_default_get c⟩)
  have hpos : ∀ c : Column, ∃ k, ix.get c = 1 + k ∧ σ[k]? = some c.header := fun c =>
    (h2 c).1 (hσ.mem_iff.mpr (header_mem_canonicalColumns c))
  refine ⟨ix, ?_, ?_, ?_⟩
  · rw [headerLoop_cons]
    have : fieldMap "ID#".toList = none := by decide
    rw [this]
    exact h1
  · obtain ⟨k1, e1, _⟩ := hpos Column.name
    obtain ⟨k2, e2, _⟩ := hpos Column.value
    obtain ⟨k3, e3, _⟩ := hpos Column.worst
    obtain ⟨k4, e4, _⟩ := hpos Column.threshold
    obtain ⟨k5, e5, _⟩ := hpos Column.raw_value
    simp only [indices.get] at e1 e2 e3 e4 e5
    simp [indices.allSet, e1, e2, e3, e4, e5]
  · intro f id c
    obtain ⟨k, e, hk⟩ := hpos c
    rw [e, Nat.add_comm, List.getElem?_cons_succ, List.getElem?_map, hk]
    rfl

/-- The outcome of a data row depends only on the fields the indices point
to. -/
theorem parseRow_congr {ix ix1 : indices} {fs fs1 : List Str} (h0 : fs[0]? = fs1[0]?)
    (h : ∀ c : Column, fs[ix.get c]? = fs1[ix1.get c]?) : parseRow ix fs = parseRow ix1 fs1 := by
  have hn := h Column.name
  have hv := h Column.value
  have hw := h Column.worst
  have ht := h Column.threshold
  have hr := h Column.raw_value
  have hf := h Column.flag
  simp only [indices.get] at hn hv hw ht hr hf
  unfold parseRow
  rw [h0, hn, hv, hw, ht, hr, hf]

theorem fields_nil : fields [] = [] := rfl

theorem parseSMARTAttrs_of_fields {ix : indices} {o : Output} {l id : Str} {rest : List Str}
    (hl : fields l = id :: rest) :
    parseSMARTAttrs (some ix) o l =
      if id = "ID#".toList then some (Step.fail o Site.repeatedHeader [])
      else parseSMARTAttrsRow ix o (id :: rest) := by
  have hne : l ≠ [] := by
    intro e; rw [e, fields_nil] at hl; cases hl
  unfold parseSMARTAttrs
  rw [if_neg hne, hl]
  simp only [List.getElem?_cons_zero]

theorem parseSMARTAttrs_header_of_fields {o : Output} {l : Str} {rest : List Str}
    (hl : fields l = "ID#".toList :: rest) :
    parseSMARTAttrs none o l = some (parseSMARTAttrsHeader o l ("ID#".toList :: rest)) := by
  have hne : l ≠ [] := by
    intro e; rw [e, fields_nil] at hl; cases hl
  unfold parseSMARTAttrs
  rw [if_neg hne, hl]
  simp only [List.getElem?_cons_zero]
  rfl

theorem runTable_cons (idx : Option indices) (o : Output) (l : Str) (ls : List Str) :
    runTable idx o (l :: ls) =
      match parseSMARTAttrs idx o l with
      | none => none
      | some st =>
        if st.err.isSome then some st
        else
          match st.next with
          | some (LineParser.parseSMARTAttrs idx1) => runTable idx1 st.o ls
          | _ => some st := rfl

/-- Data rows laid out in two column orders, read with the indices of the
respective header, leave the same record and the same error. -/
theorem runTable_rows_congr {ix ixc : indices} {σ τ : List Str}
    (hix : ∀ (f : Str → Str) (id : Str) (c : Column), (id :: σ.map f)[ix.get c]? = some (f c.header))
    (hixc : ∀ (f : Str → Str) (id : Str) (c : Column),
      (id :: τ.map f)[ixc.get c]? = some (f c.header))
    {rows rowsc : List Str}
    (hrows : List.Forall₂ (fun l lc => ∃ (id : Str) (f : Str → Str),
      fields l = id :: σ.map f ∧ fields lc = id :: τ.map f) rows rowsc) :
    ∀ o : Output, (runTable (some ix) o rows).map (fun st => (st.o, st.err))
      = (runTable (some ixc) o rowsc).map (fun st => (st.o, st.err)) := by
  induction hrows with
  | nil => intro o; rfl
  | @cons l lc ls lcs hl _ ih =>
    intro o
    obtain ⟨id, f, h1, h2⟩ := hl
    rw [runTable_cons, runTable_cons, parseSMARTAttrs_of_fields h1, parseSMARTAttrs_of_fields h2]
    by_cases hid : id = "ID#".toList
    · rw [if_pos hid, if_pos hid]
      rfl
    · rw [if_neg hid, if_neg hid]
      have hrow : parseRow ix (id :: σ.map f) = parseRow ixc (id :: τ.map f) :=
        parseRow_congr (by simp) (fun c => by rw [hix f id c, hixc f id c])
      unfold parseSMARTAttrsRow
      rw [hrow]
      cases parseRow ixc (id :: τ.map f) with
      | none => rfl
      | some x =>
        cases x with
        | error e => rfl
        | ok a => exact ih _

/-! ## Lemmas on the string functions -/

theorem isPrefixOf_cons_cons (p c : Char) (ps cs : Str) :
    (p :: ps).isPrefixOf (c :: cs) = (p == c && ps.isPrefixOf cs) := rfl

theorem isPrefixOf_append_self (ps rest : Str) : ps.isPrefixOf (ps ++ rest) = true := by
  induction ps with
  | nil => cases rest <;> rfl
  | cons p ps ih => rw [List.cons_append, isPrefixOf_cons_cons, ih]; simp

theorem index_cons (c : Char) (cs sep : Str) :
    index (c :: cs) sep = if sep.isPrefixOf (c :: cs) then some 0 else (index cs sep).map (· + 1) :=
  rfl

/-- The separator is first found right after a prefix that does not contain
the separator's first character. -/
theorem index_append (p : Char) (ps rest : Str) : ∀ a : Str, p ∉ a →
    index (a ++ (p :: ps) ++ rest) (p :: ps) = some a.length := by
  intro a
  induction a with
  | nil =>
    intro _
    rw [List.nil_append, List.cons_append, index_cons, ← List.cons_append,
      isPrefixOf_append_self]
    rfl
  | cons c a ih =>
    intro h
    have hc : p ≠ c := fun e => h (e ▸ List.mem_cons_self _ _)
    have ha : p ∉ a := fun e => h (List.mem_cons_of_mem _ e)
    rw [List.cons_append, List.cons_append, index_cons, isPrefixOf_cons_cons]
    have : (p == c) = false := by simpa using hc
    rw [this, Bool.false_and]
    simp only [Bool.false_eq_true, if_false]
    rw [ih ha]
    rfl

/-- When `index` finds the separator, the separator occurs in the string. -/
theorem index_some_occurs (sep : Str) : ∀ (s : Str) (i : Nat), index s sep = some i →
    sep <:+: s := by
  intro s
  induction s with
  | nil =>
    intro i h
    unfold index at h
    by_cases hs : sep = []
    · rw [hs]
    · rw [if_neg hs] at h; cases h
  | cons c cs ih =>
    intro i h
    rw [index_cons] at h
    by_cases hp : sep.isPrefixOf (c :: cs) = true
    · exact (List.isPrefixOf_iff_prefix.mp hp).isInfix
    · rw [if_neg hp] at h
      cases hi : index cs sep with
      | none => rw [hi] at h; cases h
      | some j =>
        obtain ⟨a, b, hab⟩ := ih j hi
        exact ⟨c :: a, b, by rw [← hab]; simp⟩

theorem splitN_two_append (p : Char) (ps rest a : Str) (h : p ∉ a) :
    splitN (a ++ (p :: ps) ++ rest) (p :: ps) 2 = [a, rest] := by
  have hi := index_append p ps rest a h
  show (match index (a ++ (p :: ps) ++ rest) (p :: ps) with
    | none => [a ++ (p :: ps) ++ rest]
    | some m => (a ++ (p :: ps) ++ rest).take m ::
        splitN ((a ++ (p :: ps) ++ rest).drop (m + (p :: ps).length)) (p :: ps) 1) = [a, rest]
  rw [hi]
  simp only []
  have h1 : (a ++ (p :: ps) ++ rest).take a.length = a := by
    rw [List.append_assoc, List.take_left']
    rfl
  have h2 : (a ++ (p :: ps) ++ rest).drop (a.length + (p :: ps).length) = rest := by
    rw [← List.length_append, List.drop_left']
    rfl
  rw [h1, h2]
  rfl

theorem replaceAllGo_comma (s : Str) :
    replaceAllGo [','] [] 0 s = s.filter (fun c => c != ',') := by
  induction s with
  | nil => rfl
  | cons c cs ih =>
    by_cases hc : c = ','
    · subst hc
      have : replaceAllGo [','] [] 0 (',' :: cs) = [] ++ replaceAllGo [','] [] 0 cs := by
        rw [replaceAllGo]
        cases cs <;> rfl
      rw [this, ih]
      simp
    · have hne : (',' == c) = false := by
        simpa using fun e : ',' = c => hc e.symm
      have : replaceAllGo [','] [] 0 (c :: cs) = c :: replaceAllGo [','] [] 0 cs := by
        rw [replaceAllGo, isPrefixOf_cons_cons, hne]
        rfl
      rw [this, ih]
      simp [hc]

theorem replaceAll_comma (s : Str) :
    replaceAll s ",".toList [] = s.filter (fun c => c != ',') :=
  replaceAllGo_comma s

/-! ## Lemmas on `strconv.ParseInt` -/

theorem digitVal_of_isDigit {c : Char} (h : isDigit c = true) :
    digitVal c = some (c.toNat - 48) ∧ c.toNat - 48 < 10 ∧ c ≠ '_' ∧ c ≠ '+' ∧ c ≠ '-' := by
  simp only [isDigit, Bool.and_eq_true, decide_eq_true_eq] at h
  refine ⟨?_, by omega, ?_, ?_, ?_⟩
  · unfold digitVal
    simp only []
    rw [if_pos h]
  · intro e; rw [e] at h; revert h; decide
  · intro e; rw [e] at h; revert h; decide
  · intro e; rw [e] at h; revert h; decide

theorem parseDigits_digits (b0 : Bool) : ∀ (ds : Str) (acc : Nat),
    (∀ c ∈ ds, isDigit c = true) →
    parseDigits 10 b0 ds acc = some (ds.foldl (fun a c => a * 10 + (c.toNat - 48)) acc) := by
  intro ds
  induction ds with
  | nil => intro acc _; rfl
  | cons c cs ih =>
    intro acc h
    obtain ⟨h1, h2, h3, _, _⟩ := digitVal_of_isDigit (h c (List.mem_cons_self _ _))
    rw [parseDigits, if_neg (fun e => h3 e.1), h1]
    simp only []
    rw [if_neg (by omega)]
    exact ih _ (fun d hd => h d (List.mem_cons_of_mem _ hd))

/-- A non-empty string of decimal digits whose value fits `int64` parses, in
base 10, to that value. -/
theorem parseInt_digits {ds : Str} (hne : ds ≠ []) (hd : ∀ c ∈ ds, isDigit c = true)
    (hv : decVal ds < 2 ^ 63) : parseInt ds 10 64 = some (decVal ds : Int) := by
  cases ds with
  | nil => exact absurd rfl hne
  | cons c r =>
    obtain ⟨_, _, _, hp, hm⟩ := digitVal_of_isDigit (hd c (List.mem_cons_self _ _))
    have hu : parseUint (c :: r) 10 64 = some (decVal (c :: r)) := by
      unfold parseUint
      rw [if_neg (by simp)]
      simp only [show decide ((10 : Nat) = 0) = false by decide, Bool.false_eq_true, if_false,
        false_and]
      rw [parseDigits_digits false (c :: r) 0 hd]
      simp only []
      rw [if_neg (by unfold decVal at hv; omega)]
      rfl
    unfold parseInt
    simp only []
    rw [if_neg (by simp [hp, hm]), hu]
    simp only [show decide (c = '-') = false by simpa using hm]
    rw [if_neg (by simp; omega), if_neg (by simp)]
    rfl

theorem isDigit_of_digitVal {c : Char} {d : Nat} (h : digitVal c = some d) (hd : d < 10) :
    isDigit c = true := by
  unfold digitVal at h
  simp only [] at h
  by_cases h1 : 48 ≤ c.toNat ∧ c.toNat ≤ 57
  · simp [isDigit, h1.1, h1.2]
  · rw [if_neg h1] at h
    by_cases h2 : 97 ≤ c.toNat ∧ c.toNat ≤ 122
    · rw [if_pos h2] at h; simp only [Option.some.injEq] at h; omega
    · rw [if_neg h2] at h
      by_cases h3 : 65 ≤ c.toNat ∧ c.toNat ≤ 90
      · rw [if_pos h3] at h; simp only [Option.some.injEq] at h; omega
      · rw [if_neg h3] at h; cases h

theorem parseDigits_some_digits : ∀ (ds : Str) (acc n : Nat),
    parseDigits 10 false ds acc = some n → ∀ c ∈ ds, isDigit c = true := by
  intro ds
  induction ds with
  | nil => intro acc n _ c hc; cases hc
  | cons d ds ih =>
    intro acc n h c hc
    rw [parseDigits, if_neg (by simp)] at h
    cases hd : digitVal d with
    | none => rw [hd] at h; cases h
    | some v =>
      rw [hd] at h
      simp only [] at h
      by_cases hv : 10 ≤ v
      · rw [if_pos hv] at h; cases h
      · rw [if_neg hv] at h
        rcases List.mem_cons.mp hc with e | e
        · rw [e]; exact isDigit_of_digitVal hd (by omega)
        · exact ih _ _ h c e

theorem parseUint_some_digits {s : Str} {n : Nat} (h : parseUint s 10 64 = some n) :
    s ≠ [] ∧ ∀ c ∈ s, isDigit c = true := by
  unfold parseUint at h
  by_cases hs : s = []
  · rw [if_pos hs] at h; cases h
  · rw [if_neg hs] at h
    simp only [show decide ((10 : Nat) = 0) = false by decide, Bool.false_eq_true, if_false,
      false_and] at h
    cases hp : parseDigits 10 false s 0 with
    | none => rw [hp] at h; cases h
    | some m => exact ⟨hs, parseDigits_some_digits s 0 m hp⟩

/-- What `strconv.ParseInt(s, 10, 64)` accepts is a decimal integer. -/
theorem parseInt_some_decimal {s : Str} {n : Int} (h : parseInt s 10 64 = some n) :
    DecimalInt s := by
  cases s with
  | nil => cases h
  | cons c r =>
    unfold parseInt at h
    simp only [] at h
    by_cases hc : c = '+' ∨ c = '-'
    · rw [if_pos hc] at h
      cases hu : parseUint r 10 64 with
      | none => rw [hu] at h; cases h
      | some m =>
        obtain ⟨h1, h2⟩ := parseUint_some_digits hu
        refine ⟨[c], r, rfl, ?_, h1, h2⟩
        rcases hc with e | e
        · exact Or.inr (Or.inl (by rw [e]))
        · exact Or.inr (Or.inr (by rw [e]))
    · rw [if_neg hc] at h
      cases hu : parseUint (c :: r) 10 64 with
      | none => rw [hu] at h; cases h
      | some m =>
        obtain ⟨h1, h2⟩ := parseUint_some_digits hu
        exact ⟨[], c :: r, rfl, Or.inl rfl, h1, h2⟩

/-! ## The information handler -/

theorem parseInfo_of_split {l f0 f1 : Str} (tl : TimeLib) (o : Output)
    (h : splitN l ":".toList 2 = [f0, f1]) :
    parseInfo tl o l = parseInfoSwitch tl o (toLower (trimSpace f0)) (trimSpace f1) := by
  have hne : l ≠ [] := by
    intro e
    have h0 : splitN [] ":".toList 2 = [[]] := by decide
    rw [e, h0] at h
    simp at h
  unfold parseInfo
  rw [if_neg hne, h]

theorem parseInfoSwitch_capacity (tl : TimeLib) (o : Output) (v : Str) :
    parseInfoSwitch tl o "user capacity".toList v = parseInfoCapacity o v := by
  unfold parseInfoSwitch
  rw [if_neg (by decide), if_neg (by decide), if_neg (by decide), if_neg (by decide),
    if_neg (by decide), if_pos rfl]

theorem parseInfoSwitch_sectors (tl : TimeLib) (o : Output) (v : Str) :
    parseInfoSwitch tl o "sector sizes".toList v =
      match parseInfoSectors (splitN v ", ".toList 2) o with
      | (o, some e) => ⟨o, none, some e⟩
      | (o, none) => ⟨updateBlocks o, some LineParser.parseInfo, none⟩ := by
  unfold parseInfoSwitch
  rw [if_neg (by decide), if_neg (by decide), if_neg (by decide), if_neg (by decide),
    if_neg (by decide), if_neg (by decide), if_pos rfl]

theorem parseInfoSwitch_local_time (tl : TimeLib) (o : Output) (v : Str) :
    parseInfoSwitch tl o "local time is".toList v =
      match tl.parse v with
      | none => Step.fail { o with LocalTime := { o.LocalTime with AscTime := v } }
          Site.localTime v
      | some t => ⟨{ o with LocalTime := { TimeT := t, AscTime := v } },
          some LineParser.parseInfo, none⟩ := by
  unfold parseInfoSwitch
  rw [if_neg (by decide), if_neg (by decide), if_neg (by decide), if_neg (by decide),
    if_neg (by decide), if_neg (by decide), if_neg (by decide), if_neg (by decide),
    if_neg (by decide), if_pos rfl]

theorem not_mem_of_digits_commas {pre : Str} (h : ∀ c ∈ pre, isDigit c = true ∨ c = ',') :
    ' ' ∉ pre := by
  intro hm
  rcases h _ hm with e | e
  · revert e; decide
  · revert e; decide

theorem not_mem_of_digits {ds : Str} (h : ∀ c ∈ ds, isDigit c = true) :
    ' ' ∉ ds ∧ ',' ∉ ds := by
  constructor
  · intro hm; have := h _ hm; revert this; decide
  · intro hm; have := h _ hm; revert this; decide

theorem filter_digits_commas {pre : Str} (h : ∀ c ∈ pre, isDigit c = true ∨ c = ',') :
    ∀ c ∈ pre.filter (fun c => c != ','), isDigit c = true := by
  intro c hc
  rw [List.mem_filter] at hc
  rcases h c hc.1 with e | e
  · exact e
  · rw [e] at hc; simp at hc

theorem filter_ne_nil {pre : Str} (h : ∃ c ∈ pre, isDigit c = true) :
    pre.filter (fun c => c != ',') ≠ [] := by
  obtain ⟨c, hc, hd⟩ := h
  have : c ∈ pre.filter (fun c => c != ',') := by
    rw [List.mem_filter]
    refine ⟨hc, ?_⟩
    have : c ≠ ',' := by intro e; rw [e] at hd; revert hd; decide
    simpa using this
  exact List.ne_nil_of_mem this

/-- Case `user capacity` on a value `<digits with commas> bytes [...`. -/
theorem parseInfoCapacity_ok (o : Output) {pre rest : Str}
    (hpre : ∀ c ∈ pre, isDigit c = true ∨ c = ',') (hdig : ∃ c ∈ pre, isDigit c = true)
    (hfit : decVal (pre.filter (fun c => c != ',')) < 2 ^ 63) :
    parseInfoCapacity o (pre ++ " bytes [".toList ++ rest) =
      ⟨updateBlocks { o with UserCapacity := { o.UserCapacity with
          Bytes := (decVal (pre.filter (fun c => c != ',')) : Int) } },
        some LineParser.parseInfo, none⟩ := by
  unfold parseInfoCapacity
  have hi : index (pre ++ " bytes [".toList ++ rest) " bytes [".toList = some pre.length :=
    index_append ' ' "bytes [".toList rest pre (not_mem_of_digits_commas hpre)
  rw [hi]
  simp only []
  have ht : (pre ++ " bytes [".toList ++ rest).take pre.length = pre := by
    rw [List.append_assoc, List.take_left']
    rfl
  rw [ht, replaceAll_comma,
    parseInt_digits (filter_ne_nil hdig) (filter_digits_commas hpre) hfit]

theorem updateBlocks_Bytes (o : Output) : (updateBlocks o).UserCapacity.Bytes = o.UserCapacity.Bytes := by
  unfold updateBlocks
  split <;> rfl

theorem wrap64_of_fits {x : Int} (h0 : 0 ≤ x) (h1 : x < 2 ^ 63) : wrap64 x = x := by
  unfold wrap64
  rw [Int.emod_eq_of_lt (by omega) (by omega)]
  omega

theorem div64_natCast (b l : Nat) (hb : b < 2 ^ 63) : div64 (b : Int) (l : Int) = ((b / l : Nat) : Int) := by
  unfold div64
  rw [← Int.ofNat_tdiv]
  have : b / l ≤ b := Nat.div_le_self _ _
  exact wrap64_of_fits (Int.ofNat_nonneg _) (by
    have h2 : ((b / l : Nat) : Int) ≤ (b : Int) := by exact_mod_cast this
    have h3 : (b : Int) < 2 ^ 63 := by exact_mod_cast hb
    omega)

/-- Case `sector sizes` on a value `<L> bytes logical, <P> bytes physical`. -/
theorem parseInfoSwitch_sectors_ok (tl : TimeLib) (o : Output) {ld pd : Str}
    (hl0 : ld ≠ []) (hl : ∀ c ∈ ld, isDigit c = true) (hlf : decVal ld < 2 ^ 63)
    (hp0 : pd ≠ []) (hp : ∀ c ∈ pd, isDigit c = true) (hpf : decVal pd < 2 ^ 63) :
    parseInfoSwitch tl o "sector sizes".toList
        (ld ++ " bytes logical, ".toList ++ pd ++ " bytes physical".toList) =
      ⟨updateBlocks { o with LogicalBlockSize := (decVal ld : Int),
                             PhysicalBlockSize := (decVal pd : Int) },
        some LineParser.parseInfo, none⟩ := by
  rw [parseInfoSwitch_sectors]
  have hv : ld ++ " bytes logical, ".toList ++ pd ++ " bytes physical".toList
      = (ld ++ " bytes logical".toList) ++ (',' :: " ".toList) ++
          (pd ++ " bytes physical".toList) := by
    simp [List.append_assoc]
  have hnc : ',' ∉ ld ++ " bytes logical".toList := by
    intro hm
    rcases List.mem_append.mp hm with e | e
    · exact (not_mem_of_digits hl).2 e
    · revert e; decide
  have hs : splitN (ld ++ " bytes logical, ".toList ++ pd ++ " bytes physical".toList)
      ", ".toList 2 = [ld ++ " bytes logical".toList, pd ++ " bytes physical".toList] := by
    rw [hv]
    exact splitN_two_append ',' " ".toList _ _ hnc
  have hs1 : splitN (ld ++ " bytes logical".toList) " ".toList 2 = [ld, "bytes logical".toList] := by
    have := splitN_two_append ' ' [] "bytes logical".toList ld (not_mem_of_digits hl).1
    simpa [List.append_assoc] using this
  have hs2 : splitN (pd ++ " bytes physical".toList) " ".toList 2
      = [pd, "bytes physical".toList] := by
    have := splitN_two_append ' ' [] "bytes physical".toList pd (not_mem_of_digits hp).1
    simpa [List.append_assoc] using this
  rw [hs]
  have hsec : parseInfoSectors [ld ++ " bytes logical".toList, pd ++ " bytes physical".toList] o
      = ({ o with LogicalBlockSize := (decVal ld : Int),
                  PhysicalBlockSize := (decVal pd : Int) }, none) := by
    have hne : ¬ ("bytes physical".toList = "bytes logical".toList) := by decide
    rw [parseInfoSectors, hs1]
    simp only [if_true]
    rw [parseInt_digits hl0 hl hlf]
    simp only []
    rw [parseInfoSectors, hs2]
    simp only [hne, if_false, if_true]
    rw [parseInt_digits hp0 hp hpf]
    rfl
  rw [hsec]

/-! ## The streaming driver -/

/-- A decode step that returns an error other than `io.EOF` makes `Decode`
send two items: the error without a record, then the record without an
error. -/
theorem Decode_error_step {R : Type} (decoder : R → Output → Run (R × Output × Option Error))
    (fuel : Nat) (r r1 : R) (o : Output) (e : Error) (he : e ≠ Error.EOF)
    (h : decoder r {} = Run.ret (r1, o, some e)) :
    Decode decoder (fuel + 1) r
      = (⟨none, some e⟩ :: ⟨some o, none⟩ :: (Decode decoder fuel r1).1,
          (Decode decoder fuel r1).2) := by
  rw [Decode, h]
  simp only []
  rw [if_neg (by simpa using he), if_pos (by simp)]
  rfl

/-! ## Machine arithmetic -/

theorem and64_low16 (x : Int) : and64 x 0xffff = x % 2 ^ 16 := by
  unfold and64
  have h : (0xffff : Nat) = 2 ^ 16 - 1 := by norm_num
  rw [h, Nat.and_pow_two_sub_one_eq_mod]
  have hnn : (0 : Int) ≤ x % 2 ^ 64 := Int.emod_nonneg _ (by norm_num)
  rw [Int.natCast_mod, Int.toNat_of_nonneg hnn]
  exact Int.emod_emod_of_dvd x (by norm_num)

/-! ## The claims -/

set_option maxRecDepth 100000

/-- C1: on the minimal text report (model `X`, serial number `Y`, capacity
`1,000 bytes [1 kB]`, one attribute row for ID 9 with raw value 1234, end
marker), read through a new `bufio.Reader` over a reader of any chunk size,
`parseSMARTCtl` started on the empty record returns no error and leaves
ModelName = X, SerialNumber = Y, UserCapacity.Bytes = 1000 and
PowerOnTime.Hours = 1234. -/
theorem parseSMARTCtl_minimalReport (tl : TimeLib) (chunk : Nat) :
    ∃ r o, parseSMARTCtl tl (NewReader ⟨minimalReport, chunk⟩) {} = Run.ret (r, o, none) ∧
      o.ModelName = "X".toList ∧ o.SerialNumber = "Y".toList ∧
      o.UserCapacity.Bytes = 1000 ∧ o.PowerOnTime.Hours = 1234 := by
  have h := parseSMARTCtl_rest tl (NewReader ⟨minimalReport, chunk⟩) {}
  have hrest : (NewReader ⟨minimalReport, chunk⟩).rest = minimalReport := rfl
  rw [hrest] at h
  have ht : ∃ o, parseText tl minimalReport {} = Run.ret ([], o, none) ∧
      o.ModelName = "X".toList ∧ o.SerialNumber = "Y".toList ∧
      o.UserCapacity.Bytes = 1000 ∧ o.PowerOnTime.Hours = 1234 :=
    ⟨_, rfl, rfl, rfl, rfl, rfl⟩
  obtain ⟨o, ho, hfields⟩ := ht
  rw [ho] at h
  cases hp : parseSMARTCtl tl (NewReader ⟨minimalReport, chunk⟩) {} with
  | panic => rw [hp] at h; simp [Run.map] at h
  | fuel => rw [hp] at h; simp [Run.map] at h
  | ret a =>
    obtain ⟨r, o1, e⟩ := a
    rw [hp] at h
    simp only [Run.map, Run.ret.injEq, Prod.mk.injEq] at h
    obtain ⟨_, h2, h3⟩ := h
    subst h2 h3
    exact ⟨r, o1, rfl, hfields⟩

/-- C2: the raw-value interpreter `readRawValue`, over the integers, equals
the reference of the specification for every attribute ID and raw value, and
on attribute 194 it maps 45 to 45, 0x002D0014002D to 0x002D and 0x0000FFFFFFF0
to itself. -/
theorem readRawValue_eq_spec :
    (∀ a : SMARTAttribute, readRawValue a = readRawValue_spec a.ID a.Raw.Value) ∧
    readRawValue { ID := 194, Raw := { Value := 45 } } = 45 ∧
    readRawValue { ID := 194, Raw := { Value := 0x002D0014002D } } = 0x002D ∧
    readRawValue { ID := 194, Raw := { Value := 0x0000FFFFFFF0 } } = 0x0000FFFFFFF0 := by
  refine ⟨?_, by decide, by decide, by decide⟩
  intro a
  unfold readRawValue readRawValue_spec
  simp only [and64_low16]
  by_cases hid : a.ID = 194
  · by_cases h1 : a.Raw.Value ≤ 0xffff
    · simp [hid, h1]
    · by_cases h2 : a.Raw.Value ≤ 0xffffffffffff ∧ a.Raw.Value > 0xffffffff
      · have h2' : (0xFFFFFFFF : Int) < a.Raw.Value ∧ a.Raw.Value ≤ 0xFFFFFFFFFFFF :=
          ⟨h2.2, h2.1⟩
        simp only [hid, h1, if_true, if_false, and_false, true_and]
        rw [if_pos h2, if_pos h2']
      · have h2' : ¬ ((0xFFFFFFFF : Int) < a.Raw.Value ∧ a.Raw.Value ≤ 0xFFFFFFFFFFFF) :=
          fun h => h2 ⟨h.2, h.1⟩
        simp only [hid, h1, if_true, if_false, and_false, true_and]
        rw [if_neg h2, if_neg h2']
  · simp [hid]

/-- C3 (the code departs from the claim): two minimal reports back to back,
delivered by a reader that hands out whatever the buffer can take (a
`strings.Reader`, a file), give one item and then the closed channel, because
the `bufio.Reader` of the first decoder call has read both reports and is
dropped; delivered one byte per `Read`, the same stream gives the two items. -/
theorem DecodeText_two_reports (tl : TimeLib) :
    (∃ o, DecodeText tl ⟨minimalReport ++ minimalReport, defaultBufSize⟩
        = ([⟨some o, none⟩], ChanEnd.closed)) ∧
    (∃ o1 o2, DecodeText tl ⟨minimalReport ++ minimalReport, 1⟩
        = ([⟨some o1, none⟩, ⟨some o2, none⟩], ChanEnd.closed)) :=
  ⟨⟨_, rfl⟩, ⟨_, _, rfl⟩⟩

/-- C4 (the code departs from the claim): for a report whose attribute table
header lacks the `VALUE` column the decoder returns the incomplete-header
error, and `Decode` sends the error item and then also an item holding the
partly filled record (ModelName = X, no error). -/
theorem DecodeText_error_also_sends_record (tl : TimeLib) :
    ∃ o, DecodeText tl ⟨reportWithoutValue, defaultBufSize⟩
        = ([⟨none, some (Error.parse Site.incompleteHeader
                  "ID# ATTRIBUTE_NAME FLAG WORST THRESH RAW_VALUE".toList)⟩,
            ⟨some o, none⟩], ChanEnd.closed) ∧
      o.ModelName = "X".toList :=
  ⟨_, rfl, rfl⟩

/-- C6, the claim as stated fails: with `RAW_VALUE` before `ID#` the header
row is not recognised as a header and the handler returns the error of a data
row met before the header, while the same table in the canonical order is
accepted and appends the attribute. -/
theorem runTable_RAW_VALUE_before_ID :
    runTable none {} ["RAW_VALUE ID# ATTRIBUTE_NAME FLAG VALUE WORST THRESH".toList,
                      "1234 9 Power_On_Hours 0x0032 100 100 000".toList]
      = some (Step.fail {} Site.rowBeforeHeader
          "RAW_VALUE ID# ATTRIBUTE_NAME FLAG VALUE WORST THRESH".toList) ∧
    (runTable none {} ["ID# ATTRIBUTE_NAME FLAG VALUE WORST THRESH RAW_VALUE".toList,
                       "9 Power_On_Hours 0x0032 100 100 000 1234".toList]).map
        (fun st => (st.o.ATASMARTAttributes.Table.map (fun a => (a.ID, a.Raw.Value)), st.err))
      = some ([(9, 1234)], none) := by
  decide

/-- C6 as amended: for every header row that starts with `ID#` and lists the
other six columns in any order, with the fields of every data row arranged in
that order (`f` gives a row's field for each column name), the handler accepts
the header, and feeding header and rows leaves the same record (the same
entries appended) and the same error as the same table written in the
canonical column order. -/
theorem runTable_shuffled (σ : List Str) (hσ : σ.Perm canonicalColumns) (o : Output)
    (h hc : Str) (rows rowsc : List Str)
    (hh : fields h = "ID#".toList :: σ) (hhc : fields hc = "ID#".toList :: canonicalColumns)
    (hrows : List.Forall₂ (fun l lc => ∃ (id : Str) (f : Str → Str),
      fields l = id :: σ.map f ∧ fields lc = id :: canonicalColumns.map f) rows rowsc) :
    (∃ ix, parseSMARTAttrs none o h
        = some ⟨o, some (LineParser.parseSMARTAttrs (some ix)), none⟩) ∧
    (runTable none o (h :: rows)).map (fun st => (st.o, st.err))
      = (runTable none o (hc :: rowsc)).map (fun st => (st.o, st.err)) := by
  obtain ⟨ix, h1, h2, h3⟩ := headerLoop_shuffled hσ
  obtain ⟨ixc, c1, c2, c3⟩ := headerLoop_shuffled (List.Perm.refl canonicalColumns)
  have e1 : parseSMARTAttrs none o h
      = some ⟨o, some (LineParser.parseSMARTAttrs (some ix)), none⟩ := by
    rw [parseSMARTAttrs_header_of_fields hh]
    unfold parseSMARTAttrsHeader
    rw [h1]
    simp [h2]
  have e2 : parseSMARTAttrs none o hc
      = some ⟨o, some (LineParser.parseSMARTAttrs (some ixc)), none⟩ := by
    rw [parseSMARTAttrs_header_of_fields hhc]
    unfold parseSMARTAttrsHeader
    rw [c1]
    simp [c2]
  refine ⟨⟨ix, e1⟩, ?_⟩
  rw [runTable_cons, runTable_cons, e1, e2]
  exact runTable_rows_congr h3 c3 hrows o

/-- Witness of C6 as amended: the header `ID# RAW_VALUE ATTRIBUTE_NAME FLAG
VALUE WORST THRESH` with the sample row in that order. -/
theorem runTable_shuffled_witness :
    (∃ ix, parseSMARTAttrs none {} "ID# RAW_VALUE ATTRIBUTE_NAME FLAG VALUE WORST THRESH".toList
        = some ⟨{}, some (LineParser.parseSMARTAttrs (some ix)), none⟩) ∧
    (runTable none {} ["ID# RAW_VALUE ATTRIBUTE_NAME FLAG VALUE WORST THRESH".toList,
                       "  9 1234 Power_On_Hours 0x0032 100 100 000".toList]).map
        (fun st => (st.o, st.err))
      = (runTable none {} ["ID# ATTRIBUTE_NAME FLAG VALUE WORST THRESH RAW_VALUE".toList,
                           "  9 Power_On_Hours 0x0032 100 100 000 1234".toList]).map
        (fun st => (st.o, st.err)) :=
  runTable_shuffled
    ["RAW_VALUE".toList, "ATTRIBUTE_NAME".toList, "FLAG".toList, "VALUE".toList, "WORST".toList,
     "THRESH".toList]
    (by decide) {} _ _ _ _ (by decide) (by decide)
    (List.Forall₂.cons ⟨"9".toList, sampleRow, by decide, by decide⟩ List.Forall₂.nil)

/-- C7, the claim as stated fails: a header row without `FLAG` is accepted
(the flag index stays 0), and so is a header row that names `ID#` twice. -/
theorem parseSMARTAttrs_header_without_FLAG :
    parseSMARTAttrs none {} "ID# ATTRIBUTE_NAME VALUE WORST THRESH RAW_VALUE".toList
      = some ⟨{}, some (LineParser.parseSMARTAttrs
          (some { name := 1, flag := 0, value := 2, worst := 3, threshold := 4, raw_value := 5 })),
          none⟩ ∧
    parseSMARTAttrs none {} "ID# ID# ATTRIBUTE_NAME FLAG VALUE WORST THRESH RAW_VALUE".toList
      = some ⟨{}, some (LineParser.parseSMARTAttrs
          (some { name := 2, flag := 3, value := 4, worst := 5, threshold := 6, raw_value := 7 })),
          none⟩ := by
  decide

/-- C7 as amended: whenever the handler accepts a header row (a row whose
first field is `ID#`, answered without error), each of `ATTRIBUTE_NAME`,
`VALUE`, `WORST`, `THRESH` and `RAW_VALUE` occurs exactly once in the row and
`FLAG` at most once; so a header row missing one of those five, or naming one
of the six twice, is rejected. -/
theorem parseSMARTAttrs_header_accepted (idx : Option indices) (o : Output) (l : Str) (st : Step)
    (hst : parseSMARTAttrs idx o l = some st) (herr : st.err = none)
    (hid : (fields l)[0]? = some "ID#".toList) :
    (fields l).count "ATTRIBUTE_NAME".toList = 1 ∧ (fields l).count "VALUE".toList = 1 ∧
    (fields l).count "WORST".toList = 1 ∧ (fields l).count "THRESH".toList = 1 ∧
    (fields l).count "RAW_VALUE".toList = 1 ∧ (fields l).count "FLAG".toList ≤ 1 := by
  cases hfs : fields l with
  | nil => rw [hfs] at hid; simp at hid
  | cons f0 rest =>
    rw [hfs] at hid
    simp only [List.getElem?_cons_zero, Option.some.injEq] at hid
    subst hid
    cases idx with
    | some ix =>
      rw [parseSMARTAttrs_of_fields hfs, if_pos rfl] at hst
      simp only [Option.some.injEq] at hst
      rw [← hst] at herr
      simp [Step.fail] at herr
    | none =>
      rw [parseSMARTAttrs_header_of_fields hfs] at hst
      simp only [Option.some.injEq] at hst
      rw [← hst] at herr
      unfold parseSMARTAttrsHeader at herr
      rw [headerLoop_cons] at herr
      have hnone : fieldMap "ID#".toList = none := by decide
      rw [hnone] at herr
      simp only [] at herr
      cases hloop : headerLoop rest 1 {} with
      | error f => rw [hloop] at herr; simp [Step.fail] at herr
      | ok ix =>
        rw [hloop] at herr
        simp only [] at herr
        by_cases hall : ix.allSet = false
        · rw [if_pos hall] at herr; simp [Step.fail] at herr
        · have hset : ix.allSet = true := by simpa using hall
          simp only [indices.allSet, Bool.and_eq_true, bne_iff_ne, ne_eq] at hset
          obtain ⟨⟨⟨⟨hn, hv⟩, hw⟩, ht⟩, hr⟩ := hset
          have hcount := headerLoop_count rest 1 {} ix (le_refl 1) hloop
          have key : ∀ c : Column, (ix.get c ≠ 0 → ("ID#".toList :: rest).count c.header = 1) ∧
              ("ID#".toList :: rest).count c.header ≤ 1 := by
            intro c
            have hne : c.header ≠ "ID#".toList := by cases c <;> decide
            rw [List.count_cons_of_ne hne]
            have := (hcount c).1 (indices_default_get c)
            exact ⟨this.2, this.1⟩
          exact ⟨(key Column.name).1 hn, (key Column.value).1 hv, (key Column.worst).1 hw,
            (key Column.threshold).1 ht, (key Column.raw_value).1 hr, (key Column.flag).2⟩

/-- Witness of C7 as amended: the canonical header row. -/
theorem parseSMARTAttrs_header_accepted_witness :
    (fields "ID# ATTRIBUTE_NAME FLAG VALUE WORST THRESH RAW_VALUE".toList).count
        "ATTRIBUTE_NAME".toList = 1 ∧
    (fields "ID# ATTRIBUTE_NAME FLAG VALUE WORST THRESH RAW_VALUE".toList).count
        "VALUE".toList = 1 ∧
    (fields "ID# ATTRIBUTE_NAME FLAG VALUE WORST THRESH RAW_VALUE".toList).count
        "WORST".toList = 1 ∧
    (fields "ID# ATTRIBUTE_NAME FLAG VALUE WORST THRESH RAW_VALUE".toList).count
        "THRESH".toList = 1 ∧
    (fields "ID# ATTRIBUTE_NAME FLAG VALUE WORST THRESH RAW_VALUE".toList).count
        "RAW_VALUE".toList = 1 ∧
    (fields "ID# ATTRIBUTE_NAME FLAG VALUE WORST THRESH RAW_VALUE".toList).count
        "FLAG".toList ≤ 1 :=
  parseSMARTAttrs_header_accepted none {}
    "ID# ATTRIBUTE_NAME FLAG VALUE WORST THRESH RAW_VALUE".toList
    ⟨{}, some (LineParser.parseSMARTAttrs
      (some { name := 1, flag := 2, value := 3, worst := 4, threshold := 5, raw_value := 6 })),
      none⟩
    (by decide) rfl (by decide)

/-- The injected-context handler keeps a timestamp that is already set. -/
theorem parseSmartCtl2Prom_keeps_timestamp (tl : TimeLib) (o : Output) (l : Str)
    (h : o.LocalTime.TimeT ≠ 0) : (parseSmartCtl2Prom tl o l).o.LocalTime = o.LocalTime := by
  unfold parseSmartCtl2Prom
  by_cases hl : l = []
  · rw [if_pos hl]
  · rw [if_neg hl]
    rcases splitN l " ".toList 2 with _ | ⟨a, _ | ⟨b, _ | ⟨c, t⟩⟩⟩
    · rfl
    · rfl
    · simp only []
      unfold parseSmartCtl2PromSwitch
      by_cases h1 : toLower (trimSpace a) = "device".toList
      · rw [if_pos h1]
      · rw [if_neg h1]
        by_cases h2 : toLower (trimSpace a) = "exit_code".toList
        · rw [if_pos h2]
          cases parseInt (trimSpace b) 10 8 <;> rfl
        · rw [if_neg h2]
          by_cases h3 : toLower (trimSpace a) = "timestamp".toList
          · rw [if_pos h3]
            cases parseInt (trimSpace b) 10 64 with
            | none => rfl
            | some n => simp only []; rw [if_pos h]
          · rw [if_neg h3]
    · rfl

/-- C8 (the code departs from the claim): the information handler has no
first-writer check.  On every `Local Time is` line whose value parses, it
replaces the record's timestamp, epoch and display string, whatever the
record held before. -/
theorem parseInfo_local_time_overrides (tl : TimeLib) (o : Output) (l f0 f1 : Str) (t : Int)
    (hsplit : splitN l ":".toList 2 = [f0, f1])
    (hkey : toLower (trimSpace f0) = "local time is".toList)
    (ht : tl.parse (trimSpace f1) = some t) :
    parseInfo tl o l
      = ⟨{ o with LocalTime := { TimeT := t, AscTime := trimSpace f1 } },
          some LineParser.parseInfo, none⟩ := by
  rw [parseInfo_of_split tl o hsplit, hkey, parseInfoSwitch_local_time, ht]

/-- Witness of C8: a record stamped 1561919685 (Sun Jun 30 18:34:45 2019 UTC)
is re-stamped 1562000240 by the line `Local Time is: Mon Jul  1 16:57:20 2019
UTC`. -/
theorem parseInfo_local_time_overrides_witness :
    parseInfo sampleTime
        { LocalTime := { TimeT := 1561919685, AscTime := "Sun Jun 30 18:34:45 2019 UTC".toList } }
        "Local Time is:    Mon Jul  1 16:57:20 2019 UTC".toList
      = ⟨{ LocalTime := { TimeT := 1562000240,
                          AscTime := trimSpace "    Mon Jul  1 16:57:20 2019 UTC".toList } },
          some LineParser.parseInfo, none⟩ :=
  parseInfo_local_time_overrides sampleTime _ _ "Local Time is".toList
    "    Mon Jul  1 16:57:20 2019 UTC".toList 1562000240 (by decide) (by decide) (by decide)

/-- C9: on a line with key `User Capacity` the information handler
(1) for a value `<digits with commas> bytes [<anything>` whose digits denote a
number that fits `int64`, returns no error, stays in charge and sets the byte
count to that number; (2) returns an error when the marker ` bytes [` does not
occur in the value; (3) returns an error when the text before the first
marker, commas removed, is not a decimal integer. -/
theorem parseInfo_user_capacity (tl : TimeLib) (o : Output) (l f0 f1 : Str)
    (hsplit : splitN l ":".toList 2 = [f0, f1])
    (hkey : toLower (trimSpace f0) = "user capacity".toList) :
    (∀ pre rest : Str, trimSpace f1 = pre ++ " bytes [".toList ++ rest →
      (∀ c ∈ pre, isDigit c = true ∨ c = ',') → (∃ c ∈ pre, isDigit c = true) →
      decVal (pre.filter (fun c => c != ',')) < 2 ^ 63 →
      (parseInfo tl o l).err = none ∧ (parseInfo tl o l).next = some LineParser.parseInfo ∧
      (parseInfo tl o l).o.UserCapacity.Bytes = (decVal (pre.filter (fun c => c != ',')) : Int)) ∧
    (¬ " bytes [".toList <:+: trimSpace f1 →
      parseInfo tl o l = Step.fail o Site.capacityMarker (trimSpace f1)) ∧
    (∀ i : Nat, index (trimSpace f1) " bytes [".toList = some i →
      ¬ DecimalInt (((trimSpace f1).take i).filter (fun c => c != ',')) →
      parseInfo tl o l = Step.fail o Site.capacityNumber
        (((trimSpace f1).take i).filter (fun c => c != ','))) := by
  rw [parseInfo_of_split tl o hsplit, hkey, parseInfoSwitch_capacity]
  refine ⟨?_, ?_, ?_⟩
  · intro pre rest hv hpre hdig hfit
    rw [hv, parseInfoCapacity_ok o hpre hdig hfit]
    exact ⟨rfl, rfl, updateBlocks_Bytes _⟩
  · intro hno
    unfold parseInfoCapacity
    cases hi : index (trimSpace f1) " bytes [".toList with
    | none => rfl
    | some i => exact absurd (index_some_occurs _ _ i hi) hno
  · intro i hi hnd
    unfold parseInfoCapacity
    rw [hi]
    simp only []
    rw [replaceAll_comma]
    cases hp : parseInt (((trimSpace f1).take i).filter (fun c => c != ',')) 10 64 with
    | none => rfl
    | some n => exact absurd (parseInt_some_decimal hp) hnd

/-- Witness of C9: the line `User Capacity:    2,000,398,934,016 bytes
[2.00 TB]` gives 2000398934016 bytes. -/
theorem parseInfo_user_capacity_witness :
    (parseInfo sampleTime {} "User Capacity:    2,000,398,934,016 bytes [2.00 TB]".toList).err
        = none ∧
    (parseInfo sampleTime {} "User Capacity:    2,000,398,934,016 bytes [2.00 TB]".toList).next
        = some LineParser.parseInfo ∧
    (parseInfo sampleTime {}
        "User Capacity:    2,000,398,934,016 bytes [2.00 TB]".toList).o.UserCapacity.Bytes
        = (decVal ("2,000,398,934,016".toList.filter (fun c => c != ',')) : Int) :=
  (parseInfo_user_capacity sampleTime {}
      "User Capacity:    2,000,398,934,016 bytes [2.00 TB]".toList
      "User Capacity".toList "    2,000,398,934,016 bytes [2.00 TB]".toList
      (by decide) (by decide)).1
    "2,000,398,934,016".toList "2.00 TB]".toList (by decide) (by decide) (by decide) (by decide)

/-- C10: for a `User Capacity` line of `B` bytes and a `Sector Sizes` line of
logical size `L > 0`, fed to the information handler in either order (from
any record, the empty one included), both lines are accepted, the block count
is `B / L` (integer division) in both cases, and the two records are equal. -/
theorem parseInfo_blocks_any_order (tl : TimeLib) (o : Output)
    (lcap lsec k1 v1 k2 v2 pre rest ld pd : Str)
    (hc1 : splitN lcap ":".toList 2 = [k1, v1])
    (hc2 : toLower (trimSpace k1) = "user capacity".toList)
    (hc3 : trimSpace v1 = pre ++ " bytes [".toList ++ rest)
    (hpre : ∀ c ∈ pre, isDigit c = true ∨ c = ',') (hdig : ∃ c ∈ pre, isDigit c = true)
    (hB : decVal (pre.filter (fun c => c != ',')) < 2 ^ 63)
    (hs1 : splitN lsec ":".toList 2 = [k2, v2])
    (hs2 : toLower (trimSpace k2) = "sector sizes".toList)
    (hs3 : trimSpace v2 = ld ++ " bytes logical, ".toList ++ pd ++ " bytes physical".toList)
    (hl0 : ld ≠ []) (hl : ∀ c ∈ ld, isDigit c = true) (hLpos : 0 < decVal ld)
    (hL : decVal ld < 2 ^ 63)
    (hp0 : pd ≠ []) (hp : ∀ c ∈ pd, isDigit c = true) (hP : decVal pd < 2 ^ 63) :
    (parseInfo tl o lsec).err = none ∧ (parseInfo tl o lcap).err = none ∧
    (parseInfo tl (parseInfo tl o lsec).o lcap).err = none ∧
    (parseInfo tl (parseInfo tl o lcap).o lsec).err = none ∧
    (parseInfo tl (parseInfo tl o lsec).o lcap).o.UserCapacity.Blocks
      = ((decVal (pre.filter (fun c => c != ',')) / decVal ld : Nat) : Int) ∧
    (parseInfo tl (parseInfo tl o lcap).o lsec).o.UserCapacity.Blocks
      = ((decVal (pre.filter (fun c => c != ',')) / decVal ld : Nat) : Int) ∧
    (parseInfo tl (parseInfo tl o lsec).o lcap).o = (parseInfo tl (parseInfo tl o lcap).o lsec).o := by
  have hcap : ∀ o1 : Output, parseInfo tl o1 lcap =
      ⟨updateBlocks { o1 with UserCapacity := { o1.UserCapacity with
          Bytes := (decVal (pre.filter (fun c => c != ',')) : Int) } },
        some LineParser.parseInfo, none⟩ := fun o1 => by
    rw [parseInfo_of_split tl o1 hc1, hc2, parseInfoSwitch_capacity, hc3,
      parseInfoCapacity_ok o1 hpre hdig hB]
  have hsec : ∀ o1 : Output, parseInfo tl o1 lsec =
      ⟨updateBlocks { o1 with LogicalBlockSize := (decVal ld : Int),
                              PhysicalBlockSize := (decVal pd : Int) },
        some LineParser.parseInfo, none⟩ := fun o1 => by
    rw [parseInfo_of_split tl o1 hs1, hs2, hs3, parseInfoSwitch_sectors_ok tl o1 hl0 hl hL hp0 hp hP]
  have hLne : (decVal ld : Int) ≠ 0 := by
    have : (0 : Int) < (decVal ld : Int) := by exact_mod_cast hLpos
    omega
  have hdiv := div64_natCast (decVal (pre.filter (fun c => c != ','))) (decVal ld) hB
  rw [hcap, hsec, hcap, hsec]
  refine ⟨rfl, rfl, rfl, rfl, ?_, ?_, ?_⟩
  · simp only [updateBlocks]
    split_ifs
    simp_all
  · simp only [updateBlocks]
    split_ifs <;> simp_all
  · simp only [updateBlocks]
    split_ifs <;> simp_all

/-- Witness of C10: 2,000,398,934,016 bytes in blocks of 512 bytes, from the
empty record. -/
theorem parseInfo_blocks_any_order_witness :
    (parseInfo sampleTime {}
        "Sector Sizes:     512 bytes logical, 4096 bytes physical".toList).err = none ∧
    (parseInfo sampleTime {}
        "User Capacity:    2,000,398,934,016 bytes [2.00 TB]".toList).err = none ∧
    (parseInfo sampleTime (parseInfo sampleTime {}
        "Sector Sizes:     512 bytes logical, 4096 bytes physical".toList).o
        "User Capacity:    2,000,398,934,016 bytes [2.00 TB]".toList).err = none ∧
    (parseInfo sampleTime (parseInfo sampleTime {}
        "User Capacity:    2,000,398,934,016 bytes [2.00 TB]".toList).o
        "Sector Sizes:     512 bytes logical, 4096 bytes physical".toList).err = none ∧
    (parseInfo sampleTime (parseInfo sampleTime {}
        "Sector Sizes:     512 bytes logical, 4096 bytes physical".toList).o
        "User Capacity:    2,000,398,934,016 bytes [2.00 TB]".toList).o.UserCapacity.Blocks
      = ((decVal ("2,000,398,934,016".toList.filter (fun c => c != ','))
          / decVal "512".toList : Nat) : Int) ∧
    (parseInfo sampleTime (parseInfo sampleTime {}
        "User Capacity:    2,000,398,934,016 bytes [2.00 TB]".toList).o
        "Sector Sizes:     512 bytes logical, 4096 bytes physical".toList).o.UserCapacity.Blocks
      = ((decVal ("2,000,398,934,016".toList.filter (fun c => c != ','))
          / decVal "512".toList : Nat) : Int) ∧
    (parseInfo sampleTime (parseInfo sampleTime {}
        "Sector Sizes:     512 bytes logical, 4096 bytes physical".toList).o
        "User Capacity:    2,000,398,934,016 bytes [2.00 TB]".toList).o
      = (parseInfo sampleTime (parseInfo sampleTime {}
        "User Capacity:    2,000,398,934,016 bytes [2.00 TB]".toList).o
        "Sector Sizes:     512 bytes logical, 4096 bytes physical".toList).o :=
  parseInfo_blocks_any_order sampleTime {}
    "User Capacity:    2,000,398,934,016 bytes [2.00 TB]".toList
    "Sector Sizes:     512 bytes logical, 4096 bytes physical".toList
    "User Capacity".toList "    2,000,398,934,016 bytes [2.00 TB]".toList
    "Sector Sizes".toList "     512 bytes logical, 4096 bytes physical".toList
    "2,000,398,934,016".toList "2.00 TB]".toList "512".toList "4096".toList
    (by decide) (by decide) (by decide) (by decide) (by decide) (by decide)
    (by decide) (by decide) (by decide) (by decide) (by decide) (by decide) (by decide)
    (by decide) (by decide) (by decide)

/-! ## Flag bits -/

theorem and_mask (x w k : Nat) : x &&& ((2 ^ w - 1) <<< k) = (x >>> k % 2 ^ w) <<< k := by
  apply Nat.eq_of_testBit_eq
  intro j
  simp only [Nat.testBit_and, Nat.testBit_shiftLeft, Nat.testBit_two_pow_sub_one,
    Nat.testBit_mod_two_pow, Nat.testBit_shiftRight]
  by_cases hj : k ≤ j
  · have : k + (j - k) = j := by omega
    simp [hj, this, Bool.and_comm]
  · simp [hj]

/-- Masking an `int64` with `w` one-bits at position `k` extracts that bit
field. -/
theorem and64_mask (n : Int) (w k : Nat) :
    and64 n ((2 ^ w - 1) <<< k) = (((n % 2 ^ 64).toNat / 2 ^ k % 2 ^ w * 2 ^ k : Nat) : Int) := by
  unfold and64
  rw [and_mask, Nat.shiftLeft_eq, Nat.shiftRight_eq_div_pow]

theorem and64_bit0 (n : Int) : and64 n 0x0001 ≠ 0 ↔ n % 2 = 1 := by
  have h := and64_mask n 1 0
  rw [show ((2 ^ 1 - 1) <<< 0 : Nat) = 0x0001 by decide] at h
  rw [h]; push_cast; omega

theorem and64_bit1 (n : Int) : and64 n 0x0002 ≠ 0 ↔ n / 2 % 2 = 1 := by
  have h := and64_mask n 1 1
  rw [show ((2 ^ 1 - 1) <<< 1 : Nat) = 0x0002 by decide] at h
  rw [h]; push_cast; omega

theorem and64_bit2 (n : Int) : and64 n 0x0004 ≠ 0 ↔ n / 4 % 2 = 1 := by
  have h := and64_mask n 1 2
  rw [show ((2 ^ 1 - 1) <<< 2 : Nat) = 0x0004 by decide] at h
  rw [h]; push_cast; omega

theorem and64_bit3 (n : Int) : and64 n 0x0008 ≠ 0 ↔ n / 8 % 2 = 1 := by
  have h := and64_mask n 1 3
  rw [show ((2 ^ 1 - 1) <<< 3 : Nat) = 0x0008 by decide] at h
  rw [h]; push_cast; omega

theorem and64_bit4 (n : Int) : and64 n 0x0010 ≠ 0 ↔ n / 16 % 2 = 1 := by
  have h := and64_mask n 1 4
  rw [show ((2 ^ 1 - 1) <<< 4 : Nat) = 0x0010 by decide] at h
  rw [h]; push_cast; omega

theorem and64_bit5 (n : Int) : and64 n 0x0020 ≠ 0 ↔ n / 32 % 2 = 1 := by
  have h := and64_mask n 1 5
  rw [show ((2 ^ 1 - 1) <<< 5 : Nat) = 0x0020 by decide] at h
  rw [h]; push_cast; omega

theorem and64_ffc0 (n : Int) : and64 n 0xffc0 ≠ 0 ↔ n / 64 % 1024 ≠ 0 := by
  have h := and64_mask n 10 6
  rw [show ((2 ^ 10 - 1) <<< 6 : Nat) = 0xffc0 by decide] at h
  rw [h]; push_cast; omega

/-- The flags of an appended attribute are the decoding of its flag value. -/
theorem parseRow_Flags {ix : indices} {fs : List Str} {a : SMARTAttribute}
    (h : parseRow ix fs = some (Except.ok a)) : a.Flags = decodeFlags a.Flags.Value := by
  unfold parseRow at h
  repeat' split at h
  all_goals first
    | (simp only [Option.some.injEq, Except.ok.injEq] at h; rw [← h]; rfl)
    | simp at h

/-- C12: for every flag value `f`, the six flags are true exactly when the
bits 0x01, 0x02, 0x04, 0x08, 0x10, 0x20 of `f` are set (bit `k` of `f` is
`f / 2^k % 2`), the text is `P O S R C K` with `-` for an unset flag, followed
by `+` when `f & 0xFFC0` is non-zero (one of the bits 6..15 is set) and by a
space otherwise; an attribute row's flags are this decoding of its flag
value; 0x0033 gives P, O, C, K and the text `PO--CK `, 0x0041 gives
`P-----+`. -/
theorem decodeFlags_layout :
    (∀ f : Int,
      ((decodeFlags f).Prefailure = true ↔ f % 2 = 1) ∧
      ((decodeFlags f).UpdatedOnline = true ↔ f / 2 % 2 = 1) ∧
      ((decodeFlags f).Performance = true ↔ f / 4 % 2 = 1) ∧
      ((decodeFlags f).ErrorRate = true ↔ f / 8 % 2 = 1) ∧
      ((decodeFlags f).EventCount = true ↔ f / 16 % 2 = 1) ∧
      ((decodeFlags f).AutoKeep = true ↔ f / 32 % 2 = 1) ∧
      (and64 f 0xFFC0 ≠ 0 ↔ f / 64 % 1024 ≠ 0) ∧
      (decodeFlags f).Text =
        [if (decodeFlags f).Prefailure then 'P' else '-',
         if (decodeFlags f).UpdatedOnline then 'O' else '-',
         if (decodeFlags f).Performance then 'S' else '-',
         if (decodeFlags f).ErrorRate then 'R' else '-',
         if (decodeFlags f).EventCount then 'C' else '-',
         if (decodeFlags f).AutoKeep then 'K' else '-',
         if f / 64 % 1024 ≠ 0 then '+' else ' '] ∧
      (decodeFlags f).Value = f) ∧
    (∀ (ix : indices) (fs : List Str) (a : SMARTAttribute),
      parseRow ix fs = some (Except.ok a) → a.Flags = decodeFlags a.Flags.Value) ∧
    decodeFlags 0x0033 =
      { Value := 0x0033, Text := "PO--CK ".toList, Prefailure := true, UpdatedOnline := true,
        Performance := false, ErrorRate := false, EventCount := true, AutoKeep := true } ∧
    (decodeFlags 0x0041).Text = "P-----+".toList := by
  refine ⟨fun f => ⟨?_, ?_, ?_, ?_, ?_, ?_, and64_ffc0 f, ?_, rfl⟩,
    fun ix fs a h => parseRow_Flags h, by decide, by decide⟩
  · simp only [decodeFlags, decide_eq_true_eq]; exact and64_bit0 f
  · simp only [decodeFlags, decide_eq_true_eq]; exact and64_bit1 f
  · simp only [decodeFlags, decide_eq_true_eq]; exact and64_bit2 f
  · simp only [decodeFlags, decide_eq_true_eq]; exact and64_bit3 f
  · simp only [decodeFlags, decide_eq_true_eq]; exact and64_bit4 f
  · simp only [decodeFlags, decide_eq_true_eq]; exact and64_bit5 f
  · simp only [decodeFlags, List.cons.injEq, and_true, true_and]
    have h := and64_ffc0 f
    by_cases hp : f / 64 % 1024 ≠ 0
    · rw [if_pos hp]; simp [h.mpr hp]
    · rw [if_neg hp]
      have : ¬ and64 f 0xffc0 ≠ 0 := fun e => hp (h.mp e)
      simp at this
      simp [this]

/-- Witness of C12 on the sample row, whose flag field is 0x0032. -/
theorem decodeFlags_layout_witness :
    ({ ID := 9, Name := "power_on_hours".toList, Value := 100, Worst := 100, Threshold := 0,
       Flags := decodeFlags 0x0032,
       Raw := { Value := 1234, Text := "1234".toList } } : SMARTAttribute).Flags
      = decodeFlags 0x0032 :=
  decodeFlags_layout.2.1
    { name := 1, flag := 2, value := 3, worst := 4, threshold := 5, raw_value := 6 }
    (fields "  9 Power_On_Hours 0x0032 100 100 000 1234".toList) _ rfl

/-- C13 (the code departs from the claim): the ID, VALUE, WORST and THRESH
fields are read with `strconv.ParseInt(s, 0, 32)`, where a leading `0`
announces an octal number.  The zero-padded `099` is rejected, so the row
fails with the current-value error, and `036` is read as 30; `0x24` is read
as 36. -/
theorem parseRow_zero_padded :
    parseInt "099".toList 0 32 = none ∧ parseInt "051".toList 0 32 = some 41 ∧
    parseInt "0x24".toList 0 32 = some 36 ∧
    runTable none {} [smartctlHeader,
        "  9 Power_On_Hours          0x0032   099   099   000    Old_age   Always       -       1234".toList]
      = some (Step.fail {} Site.attrValue "099".toList) ∧
    (runTable none {} [smartctlHeader,
        "  5 Reallocated_Sector_Ct   0x0033   100   100   036    Pre-fail  Always       -       0".toList]).map
        (fun st => (st.o.ATASMARTAttributes.Table.map
          (fun a => (a.ID, a.Value, a.Worst, a.Threshold)), st.err))
      = some ([(5, 100, 100, 30)], none) := by
  decide

/-- C14 (the code departs from the claim): after an accepted header, a data
row with fewer fields than the header's column positions makes the handler
index past the end of the row: the call panics, and with it `parseSMARTCtl`. -/
theorem parseSMARTAttrs_short_row_panics :
    runTable none {} ["ID# ATTRIBUTE_NAME FLAG VALUE WORST THRESH RAW_VALUE".toList,
                      "  9 Power_On_Hours".toList] = none ∧
    parseSMARTAttrs
        (some { name := 1, flag := 2, value := 3, worst := 4, threshold := 5, raw_value := 6 }) {}
        "9 Power_On_Hours".toList = none ∧
    parseSMARTCtl sampleTime (NewReader ⟨shortRowReport, defaultBufSize⟩) {} = Run.panic := by
  decide

/-- C17 (the code departs from the claim): the row is split with
`strings.Fields`, so the raw-value field is the single token `29`; the
appended attribute has Raw.Value = 29 and Raw.Text = `29`, without the
auxiliary text `(Min/Max 20/50)`. -/
theorem parseRow_raw_text_without_auxiliary :
    (runTable none {} [smartctlHeader,
        "194 Temperature_Celsius     0x0022   100   100   000    Old_age   Always       -       29 (Min/Max 20/50)".toList]).map
        (fun st => (st.o.ATASMARTAttributes.Table.map (fun a => (a.ID, a.Raw)), st.err))
      = some ([(194, { Value := 29, Text := "29".toList })], none) := by
  decide

/-- C19 (the code departs from the claim): for attribute 194 with the raw
value 0x0000FFFFFFF0 the post-pass of the text parser stores 0xFFF0 as the
current temperature, while `readRawValue` exposes 0x0000FFFFFFF0. -/
theorem postPass_differs_from_readRawValue :
    (postPass { ATASMARTAttributes :=
        { Table := [{ ID := 194, Raw := { Value := 0x0000FFFFFFF0 } }] } }).Temperature.Current
      = 0xFFF0 ∧
    readRawValue { ID := 194, Raw := { Value := 0x0000FFFFFFF0 } } = 0x0000FFFFFFF0 := by
  decide

/-! ## The attribute table only grows at its end -/

theorem parseSMARTAttrsHeader_o (o : Output) (l : Str) (fs : List Str) :
    (parseSMARTAttrsHeader o l fs).o = o := by
  unfold parseSMARTAttrsHeader
  cases headerLoop fs 0 {} with
  | error f => rfl
  | ok ix =>
    simp only []
    by_cases h : ix.allSet = false
    · rw [if_pos h]; rfl
    · rw [if_neg h]

theorem parseSMARTAttrsRow_o {ix : indices} {o : Output} {fs : List Str} {st : Step}
    (h : parseSMARTAttrsRow ix o fs = some st) :
    (st.err ≠ none ∧ st.o = o) ∨
    (st.err = none ∧ st.next = some (LineParser.parseSMARTAttrs (some ix)) ∧
      ∃ a, parseRow ix fs = some (Except.ok a) ∧
        st.o = { o with ATASMARTAttributes := { o.ATASMARTAttributes with
                  Table := o.ATASMARTAttributes.Table ++ [a] } }) := by
  unfold parseSMARTAttrsRow at h
  cases hr : parseRow ix fs with
  | none => rw [hr] at h; simp at h
  | some x =>
    rw [hr] at h
    cases x with
    | error e =>
      simp only [Option.some.injEq] at h
      rw [← h]
      exact Or.inl ⟨by simp, rfl⟩
    | ok a =>
      simp only [Option.some.injEq] at h
      rw [← h]
      exact Or.inr ⟨rfl, rfl, a, rfl, rfl⟩

/-- C20: whenever the attribute table handler answers a line, (1) for an
accepted data row (no error, the line not blank and not a header row) the
record afterwards is the record before with exactly one entry appended at the
end of the table, whatever the table already holds; (2) for a rejected row, a
blank line or a header row the record, and so the table, is unchanged. -/
theorem parseSMARTAttrs_table (idx : Option indices) (o : Output) (l : Str) (st : Step)
    (h : parseSMARTAttrs idx o l = some st) :
    (st.err = none → l ≠ [] → (fields l)[0]? ≠ some "ID#".toList →
      ∃ a, st.o = { o with ATASMARTAttributes := { o.ATASMARTAttributes with
                      Table := o.ATASMARTAttributes.Table ++ [a] } }) ∧
    ((st.err ≠ none ∨ l = [] ∨ (fields l)[0]? = some "ID#".toList) → st.o = o) := by
  unfold parseSMARTAttrs at h
  by_cases hl : l = []
  · rw [if_pos hl] at h
    simp only [Option.some.injEq] at h
    rw [← h]
    exact ⟨fun _ hne => absurd hl hne, fun _ => rfl⟩
  · rw [if_neg hl] at h
    cases hf : (fields l)[0]? with
    | none => rw [hf] at h; simp at h
    | some f0 =>
      rw [hf] at h
      simp only [] at h
      by_cases hid : f0 = "ID#".toList
      · rw [if_pos hid] at h
        have ho : st.o = o := by
          cases idx with
          | some ix => simp only [Option.some.injEq] at h; rw [← h]; rfl
          | none =>
            simp only [Option.some.injEq] at h
            rw [← h]; exact parseSMARTAttrsHeader_o _ _ _
        exact ⟨fun _ _ hne => absurd (by rw [hid]) hne, fun _ => ho⟩
      · rw [if_neg hid] at h
        have hne : some f0 ≠ some "ID#".toList := fun e => hid (Option.some.inj e)
        cases idx with
        | none =>
          simp only [Option.some.injEq] at h
          rw [← h]
          exact ⟨fun he => by simp [Step.fail] at he, fun _ => rfl⟩
        | some ix =>
          rcases parseSMARTAttrsRow_o h with ⟨he, ho⟩ | ⟨he, _, a, _, ho⟩
          · exact ⟨fun e => absurd e he, fun _ => ho⟩
          · refine ⟨fun _ _ _ => ⟨a, ho⟩, fun hc => ?_⟩
            rcases hc with hc | hc | hc
            · exact absurd he hc
            · exact absurd hc hl
            · exact absurd hc hne

/-- Witness of C20: a second row for attribute 9 is appended after the entry
already in the table, and a blank line leaves the record alone. -/
theorem parseSMARTAttrs_table_witness :
    (∃ a, (⟨{ ATASMARTAttributes := { Table :=
                [{ ID := 9, Raw := { Value := 1234 } },
                 { ID := 9, Name := "power_on_hours".toList, Value := 100, Worst := 100,
                   Flags := decodeFlags 0x0032, Raw := { Value := 1235, Text := "1235".toList } }] } },
            some (LineParser.parseSMARTAttrs (some
              { name := 1, flag := 2, value := 3, worst := 4, threshold := 5, raw_value := 6 })),
            none⟩ : Step).o
        = { ({ ATASMARTAttributes := { Table := [{ ID := 9, Raw := { Value := 1234 } }] } } : Output)
            with ATASMARTAttributes := { Table := [{ ID := 9, Raw := { Value := 1234 } }] ++ [a] } }) ∧
    (⟨{ ATASMARTAttributes := { Table := [{ ID := 9, Raw := { Value := 1234 } }] } }, none, none⟩
        : Step).o
      = { ATASMARTAttributes := { Table := [{ ID := 9, Raw := { Value := 1234 } }] } } :=
  ⟨(parseSMARTAttrs_table
      (some { name := 1, flag := 2, value := 3, worst := 4, threshold := 5, raw_value := 6 })
      { ATASMARTAttributes := { Table := [{ ID := 9, Raw := { Value := 1234 } }] } }
      "  9 Power_On_Hours 0x0032 100 100 000 1235".toList _ (by decide)).1
      (by decide) (by decide) (by decide),
   (parseSMARTAttrs_table none
      { ATASMARTAttributes := { Table := [{ ID := 9, Raw := { Value := 1234 } }] } }
      [] _ (by decide)).2 (Or.inr (Or.inl rfl))⟩

/-! ## The derived fields -/

theorem ite_derived (o : Output) {c : Prop} [Decidable c] {a b : Step}
    (ha : derivedFields a.o = derivedFields o) (hb : derivedFields b.o = derivedFields o) :
    derivedFields (if c then a else b).o = derivedFields o := by
  split <;> assumption

theorem updateBlocks_derived (o : Output) : derivedFields (updateBlocks o) = derivedFields o := by
  unfold updateBlocks
  split <;> rfl

theorem parseInfoWWN_derived (o : Output) (a b c : Str) :
    derivedFields (parseInfoWWN o a b c).o = derivedFields o := by
  unfold parseInfoWWN
  cases parseInt a 16 64 with
  | none => rfl
  | some x =>
    simp only []
    cases parseInt b 16 64 with
    | none => rfl
    | some y =>
      simp only []
      cases parseInt c 16 64 <;> rfl

theorem parseInfoCapacity_derived (o : Output) (v : Str) :
    derivedFields (parseInfoCapacity o v).o = derivedFields o := by
  unfold parseInfoCapacity
  cases index v " bytes [".toList with
  | none => rfl
  | some i =>
    simp only []
    cases parseInt (replaceAll (v.take i) ",".toList []) 10 64 with
    | none => rfl
    | some n => exact updateBlocks_derived _

theorem parseInfoSectors_derived (fs : List Str) : ∀ (o : Output),
    derivedFields (parseInfoSectors fs o).1 = derivedFields o := by
  induction fs with
  | nil => intro o; rfl
  | cons s rest ih =>
    intro o
    unfold parseInfoSectors
    rcases splitN s " ".toList 2 with _ | ⟨a, _ | ⟨b, _ | ⟨c, t⟩⟩⟩
    · rfl
    · rfl
    · simp only []
      by_cases h1 : b = "bytes logical".toList
      · rw [if_pos h1]
        cases parseInt a 10 64 with
        | none => rfl
        | some n => exact (ih _).trans rfl
      · rw [if_neg h1]
        by_cases h2 : b = "bytes physical".toList
        · rw [if_pos h2]
          cases parseInt a 10 64 with
          | none => rfl
          | some n => exact (ih _).trans rfl
        · rw [if_neg h2]
    · rfl

theorem parseInfoSwitch_derived (tl : TimeLib) (o : Output) (k v : Str) :
    derivedFields (parseInfoSwitch tl o k v).o = derivedFields o := by
  unfold parseInfoSwitch
  refine ite_derived o rfl (ite_derived o rfl (ite_derived o rfl
    (ite_derived o ?_ (ite_derived o rfl (ite_derived o (parseInfoCapacity_derived _ _)
    (ite_derived o ?_ (ite_derived o rfl (ite_derived o rfl
    (ite_derived o ?_ rfl)))))))))
  · rcases splitN v " ".toList 3 with _ | ⟨a, _ | ⟨b, _ | ⟨c, _ | ⟨d, t⟩⟩⟩⟩ <;>
      first | exact parseInfoWWN_derived _ _ _ _ | rfl
  · have h := parseInfoSectors_derived (splitN v ", ".toList 2) o
    generalize parseInfoSectors (splitN v ", ".toList 2) o = x at h
    rcases x with ⟨o1, _ | e⟩
    · exact (updateBlocks_derived o1).trans h
    · exact h
  · simp only []
    cases tl.parse v <;> rfl

theorem parseInfo_derived (tl : TimeLib) (o : Output) (l : Str) :
    derivedFields (parseInfo tl o l).o = derivedFields o := by
  unfold parseInfo
  refine ite_derived o rfl ?_
  rcases splitN l ":".toList 2 with _ | ⟨a, _ | ⟨b, _ | ⟨c, t⟩⟩⟩ <;>
    first | exact parseInfoSwitch_derived _ _ _ _ | rfl

theorem parseSMARTData_derived (o : Output) (l : Str) :
    derivedFields (parseSMARTData o l).o = derivedFields o := by
  unfold parseSMARTData
  refine ite_derived o rfl ?_
  rcases splitN l ":".toList 2 with _ | ⟨a, _ | ⟨b, _ | ⟨c, t⟩⟩⟩ <;>
    first | exact ite_derived o rfl rfl | rfl

theorem parseSmartCtl2Prom_derived (tl : TimeLib) (o : Output) (l : Str) :
    derivedFields (parseSmartCtl2Prom tl o l).o = derivedFields o := by
  unfold parseSmartCtl2Prom
  refine ite_derived o rfl ?_
  rcases splitN l " ".toList 2 with _ | ⟨a, _ | ⟨b, _ | ⟨c, t⟩⟩⟩
  · rfl
  · rfl
  · simp only []
    unfold parseSmartCtl2PromSwitch
    refine ite_derived o rfl (ite_derived o ?_ (ite_derived o ?_ rfl))
    · cases parseInt (trimSpace b) 10 8 <;> rfl
    · cases parseInt (trimSpace b) 10 64 with
      | none => rfl
      | some n => exact ite_derived o rfl rfl
  · rfl

theorem parseSMARTAttrs_derived {idx : Option indices} {o : Output} {l : Str} {st : Step}
    (h : parseSMARTAttrs idx o l = some st) : derivedFields st.o = derivedFields o := by
  unfold parseSMARTAttrs at h
  by_cases hl : l = []
  · rw [if_pos hl] at h
    simp only [Option.some.injEq] at h
    rw [← h]
  · rw [if_neg hl] at h
    cases hf : (fields l)[0]? with
    | none => rw [hf] at h; simp at h
    | some f0 =>
      rw [hf] at h
      simp only [] at h
      by_cases hid : f0 = "ID#".toList
      · rw [if_pos hid] at h
        cases idx with
        | some ix => simp only [Option.some.injEq] at h; rw [← h]; rfl
        | none =>
          simp only [Option.some.injEq] at h
          rw [← h, parseSMARTAttrsHeader_o]
      · rw [if_neg hid] at h
        cases idx with
        | none => simp only [Option.some.injEq] at h; rw [← h]; rfl
        | some ix =>
          rcases parseSMARTAttrsRow_o h with ⟨_, ho⟩ | ⟨_, _, a, _, ho⟩
          · rw [ho]
          · rw [ho]; rfl

/-- No handler writes the derived fields. -/
theorem Parse_derived {tl : TimeLib} {p : LineParser} {o : Output} {l : Str} {st : Step}
    (h : p.Parse tl o l = some st) : derivedFields st.o = derivedFields o := by
  cases p with
  | parseInfo =>
    simp only [LineParser.Parse, Option.some.injEq] at h
    rw [← h]; exact parseInfo_derived tl o l
  | parseSMARTData =>
    simp only [LineParser.Parse, Option.some.injEq] at h
    rw [← h]; exact parseSMARTData_derived o l
  | parseSmartCtl2Prom =>
    simp only [LineParser.Parse, Option.some.injEq] at h
    rw [← h]; exact parseSmartCtl2Prom_derived tl o l
  | parseSMARTAttrs idx => exact parseSMARTAttrs_derived h

/-- The loop of `parseSMARTCtl` does not write the derived fields. -/
theorem parseLoop_derived {ρ : Type} (rs : ρ → Str × Option Error × ρ) (tl : TimeLib)
    (fuel : Nat) : ∀ (r : ρ) (p : Option LineParser) (i : Bool) (o : Output)
    (x : ρ × Output × Option Error),
    parseLoop rs tl fuel r p i o = Run.ret x → derivedFields x.2.1 = derivedFields o := by
  induction fuel with
  | zero => intro r p i o x h; simp [parseLoop] at h
  | succ fuel ih =>
    intro r p i o x h
    rw [parseLoop_succ] at h
    by_cases hc : (rs r).2.1.isSome ∧ ((rs r).2.1 ≠ some Error.EOF ∨ i = false)
    · rw [if_pos hc] at h
      simp only [Run.ret.injEq] at h
      rw [← h]
    · rw [if_neg hc] at h
      cases p with
      | none =>
        simp only [] at h
        by_cases hd : (rs r).2.1.isSome = true ∨ topParsers (trimSpace (rs r).1) = some none
        · rw [if_pos hd] at h
          simp only [Run.ret.injEq] at h; rw [← h]
        · rw [if_neg hd] at h
          exact ih _ _ _ _ _ h
      | some q =>
        simp only [] at h
        cases hq : q.Parse tl o (trimSpace (rs r).1) with
        | none => rw [hq] at h; simp at h
        | some st =>
          rw [hq] at h
          simp only [] at h
          have hst := Parse_derived hq
          by_cases h1 : st.err.isSome = true
          · rw [if_pos h1] at h
            simp only [Run.ret.injEq] at h; rw [← h]; exact hst
          · rw [if_neg h1] at h
            by_cases h2 : (rs r).2.1.isSome = true
            · rw [if_pos h2] at h
              simp only [Run.ret.injEq] at h; rw [← h]; exact hst
            · rw [if_neg h2] at h
              exact (ih _ _ _ _ _ h).trans hst
theorem postPass_eq_foldl (o : Output) :
    postPass o = o.ATASMARTAttributes.Table.foldl postPassStep o := rfl

theorem postPassStep_table (o : Output) (a : SMARTAttribute) :
    (postPassStep o a).ATASMARTAttributes = o.ATASMARTAttributes := by
  unfold postPassStep
  split
  · rfl
  · split
    · rfl
    · split <;> rfl

theorem foldl_postPassStep_table (t : List SMARTAttribute) : ∀ acc : Output,
    (t.foldl postPassStep acc).ATASMARTAttributes = acc.ATASMARTAttributes := by
  induction t with
  | nil => intro acc; rfl
  | cons a t ih => intro acc; rw [List.foldl_cons, ih, postPassStep_table]

theorem lastWithID_nil (id : Int) : lastWithID id [] = none := rfl

theorem lastWithID_concat (id : Int) (t : List SMARTAttribute) (a : SMARTAttribute) :
    lastWithID id (t ++ [a]) = if a.ID = id then some a else lastWithID id t := by
  unfold lastWithID
  rw [List.filter_append]
  by_cases h : a.ID = id
  · rw [if_pos h]
    have : [a].filter (fun a => decide (a.ID = id)) = [a] := by simp [h]
    rw [this, List.getLast?_concat]
  · rw [if_neg h]
    have : [a].filter (fun a => decide (a.ID = id)) = [] := by simp [h]
    rw [this, List.append_nil]

theorem lastWithID_eq_none {id : Int} {t : List SMARTAttribute} (h : ∀ a ∈ t, a.ID ≠ id) :
    lastWithID id t = none := by
  unfold lastWithID
  rw [List.getLast?_eq_none_iff, List.filter_eq_nil_iff]
  intro a ha
  simpa using h a ha

/-- What the post-pass loop leaves in the derived fields: for each of the
IDs 9, 12 and 194 the raw value of the last entry with that ID, or the old
field when no entry has the ID. -/
theorem foldl_postPassStep_fields (t : List SMARTAttribute) (acc : Output) :
    (t.foldl postPassStep acc).PowerOnTime.Hours
      = ((lastWithID 9 t).map (fun a => a.Raw.Value)).getD acc.PowerOnTime.Hours ∧
    (t.foldl postPassStep acc).PowerCycleCount
      = ((lastWithID 12 t).map (fun a => a.Raw.Value)).getD acc.PowerCycleCount ∧
    (t.foldl postPassStep acc).Temperature.Current
      = ((lastWithID 194 t).map (fun a => and64 a.Raw.Value 0xffff)).getD
          acc.Temperature.Current := by
  induction t using List.reverseRecOn with
  | nil => exact ⟨rfl, rfl, rfl⟩
  | append_singleton t a ih =>
    obtain ⟨h1, h2, h3⟩ := ih
    rw [List.foldl_append, List.foldl_cons, List.foldl_nil, lastWithID_concat,
      lastWithID_concat, lastWithID_concat]
    unfold postPassStep
    by_cases e9 : a.ID = 9
    · have n12 : ¬ a.ID = 12 := by omega
      have n194 : ¬ a.ID = 194 := by omega
      rw [if_pos e9, if_pos e9, if_neg n12, if_neg n194]
      exact ⟨rfl, h2, h3⟩
    · rw [if_neg e9, if_neg e9]
      by_cases e12 : a.ID = 12
      · have n194 : ¬ a.ID = 194 := by omega
        rw [if_pos e12, if_pos e12, if_neg n194]
        exact ⟨h1, rfl, h3⟩
      · rw [if_neg e12, if_neg e12]
        by_cases e194 : a.ID = 194
        · rw [if_pos e194, if_pos e194]
          exact ⟨h1, h2, rfl⟩
        · rw [if_neg e194, if_neg e194]
          exact ⟨h1, h2, h3⟩

/-- C16: after every `parseSMARTCtl` run that returns no error, the derived
fields agree with the attribute table of the record returned: Hours is the
raw value of the last entry with ID 9, PowerCycleCount that of the last entry
with ID 12, Temperature.Current the low 16 bits of the raw value of the last
entry with ID 194; a field whose ID has no entry in the table is as it was
in the record the run started from. -/
theorem parseSMARTCtl_derived_fields (tl : TimeLib) (r r1 : BufReader) (o o1 : Output)
    (h : parseSMARTCtl tl r o = Run.ret (r1, o1, none)) :
    (∀ a, lastWithID 9 o1.ATASMARTAttributes.Table = some a →
      o1.PowerOnTime.Hours = a.Raw.Value) ∧
    ((∀ a ∈ o1.ATASMARTAttributes.Table, a.ID ≠ 9) →
      o1.PowerOnTime.Hours = o.PowerOnTime.Hours) ∧
    (∀ a, lastWithID 12 o1.ATASMARTAttributes.Table = some a →
      o1.PowerCycleCount = a.Raw.Value) ∧
    ((∀ a ∈ o1.ATASMARTAttributes.Table, a.ID ≠ 12) →
      o1.PowerCycleCount = o.PowerCycleCount) ∧
    (∀ a, lastWithID 194 o1.ATASMARTAttributes.Table = some a →
      o1.Temperature.Current = a.Raw.Value % 2 ^ 16) ∧
    ((∀ a ∈ o1.ATASMARTAttributes.Table, a.ID ≠ 194) →
      o1.Temperature.Current = o.Temperature.Current) := by
  unfold parseSMARTCtl at h
  obtain ⟨b, hb, hbe⟩ := finish_err h
  obtain ⟨rb, ob, eb⟩ := b
  simp only [] at hbe
  subst hbe
  have hd := parseLoop_derived _ _ _ _ _ _ _ _ hb
  simp only [derivedFields, Prod.mk.injEq] at hd
  obtain ⟨hd1, hd2, hd3⟩ := hd
  rw [hb] at h
  simp only [finish, Run.ret.injEq, Prod.mk.injEq] at h
  obtain ⟨_, ho1, _⟩ := h
  have htab : o1.ATASMARTAttributes.Table = ob.ATASMARTAttributes.Table := by
    rw [← ho1, postPass_eq_foldl, foldl_postPassStep_table]
  obtain ⟨f1, f2, f3⟩ := foldl_postPassStep_fields ob.ATASMARTAttributes.Table ob
  rw [← postPass_eq_foldl, ho1, ← htab] at f1 f2 f3
  refine ⟨?_, ?_, ?_, ?_, ?_, ?_⟩
  · intro a ha; rw [f1, ha]; rfl
  · intro hn; rw [f1, lastWithID_eq_none hn, ← hd1]; rfl
  · intro a ha; rw [f2, ha]; rfl
  · intro hn; rw [f2, lastWithID_eq_none hn, ← hd2]; rfl
  · intro a ha; rw [f3, ha, ← and64_low16]; rfl
  · intro hn; rw [f3, lastWithID_eq_none hn, ← hd3]; rfl

/-- Witness of C16 on the minimal report, whose table holds attribute 9 with
raw value 1234 and no attribute 12 or 194. -/
theorem parseSMARTCtl_derived_fields_witness :
    (∀ a, lastWithID 9 minimalRecord.ATASMARTAttributes.Table = some a →
      minimalRecord.PowerOnTime.Hours = a.Raw.Value) ∧
    ((∀ a ∈ minimalRecord.ATASMARTAttributes.Table, a.ID ≠ 9) →
      minimalRecord.PowerOnTime.Hours = ({} : Output).PowerOnTime.Hours) ∧
    (∀ a, lastWithID 12 minimalRecord.ATASMARTAttributes.Table = some a →
      minimalRecord.PowerCycleCount = a.Raw.Value) ∧
    ((∀ a ∈ minimalRecord.ATASMARTAttributes.Table, a.ID ≠ 12) →
      minimalRecord.PowerCycleCount = ({} : Output).PowerCycleCount) ∧
    (∀ a, lastWithID 194 minimalRecord.ATASMARTAttributes.Table = some a →
      minimalRecord.Temperature.Current = a.Raw.Value % 2 ^ 16) ∧
    ((∀ a ∈ minimalRecord.ATASMARTAttributes.Table, a.ID ≠ 194) →
      minimalRecord.Temperature.Current = ({} : Output).Temperature.Current) :=
  parseSMARTCtl_derived_fields sampleTime (NewReader ⟨minimalReport, defaultBufSize⟩)
    ⟨[], ⟨[], defaultBufSize⟩⟩ {} minimalRecord (by decide)

/-! ## Lines and the state of the loop -/

theorem readLine_of_isLine {x : Str} (hx : IsLine x) (rest : Str) :
    readLine (x ++ rest) = (x, none, rest) := by
  rw [readLine_append_of_some rest hx]
  rfl

theorem isLine_length {x : Str} (hx : IsLine x) : 1 ≤ x.length := by
  cases x with
  | nil => simp [IsLine, cutLine] at hx
  | cons c cs => simp

theorem joinLines_length {ls : List Str} (h : ∀ x ∈ ls, IsLine x) :
    ls.length ≤ (joinLines ls).length := by
  induction ls with
  | nil => simp [joinLines]
  | cons x xs ih =>
    have h1 := isLine_length (h x (List.mem_cons_self _ _))
    have h2 := ih (fun y hy => h y (List.mem_cons_of_mem _ hy))
    simp only [joinLines, List.length_cons, List.length_append]
    omega

/-- Reading complete lines takes the loop from one state to the next as
`loopState` describes. -/
theorem parseLoop_lines (tl : TimeLib) (fuel : Nat) (rest : Str) (ls : List Str) :
    ∀ (p : Option LineParser) (i : Bool) (o : Output) (p1 : Option LineParser) (o1 : Output),
    (∀ x ∈ ls, IsLine x) → loopState tl ls p o = some (p1, o1) →
    ∃ i1, parseLoop readLine tl (fuel + ls.length) (joinLines ls ++ rest) p i o
      = parseLoop readLine tl fuel rest p1 i1 o1 := by
  induction ls with
  | nil =>
    intro p i o p1 o1 _ hst
    simp only [loopState, Option.some.injEq, Prod.mk.injEq] at hst
    obtain ⟨h1, h2⟩ := hst
    subst h1 h2
    exact ⟨i, rfl⟩
  | cons x xs ih =>
    intro p i o p1 o1 hls hst
    have hx := hls x (List.mem_cons_self _ _)
    have hxs : ∀ y ∈ xs, IsLine y := fun y hy => hls y (List.mem_cons_of_mem _ hy)
    have hread : readLine (joinLines (x :: xs) ++ rest) = (x, none, joinLines xs ++ rest) := by
      rw [joinLines, List.append_assoc]
      exact readLine_of_isLine hx _
    have hfuel : fuel + (x :: xs).length = (fuel + xs.length) + 1 := by
      simp only [List.length_cons]; omega
    rw [hfuel, parseLoop_succ, hread]
    simp only [Option.isSome_none, Bool.false_eq_true, false_and, if_false, false_or]
    cases p with
    | none =>
      simp only [loopState] at hst
      simp only []
      by_cases hd : topParsers (trimSpace x) = some none
      · rw [if_pos hd] at hst; cases hst
      · rw [if_neg hd] at hst
        rw [if_neg hd]
        exact ih _ true _ _ _ hxs hst
    | some q =>
      simp only [loopState] at hst
      simp only []
      cases hq : q.Parse tl o (trimSpace x) with
      | none => rw [hq] at hst; cases hst
      | some st =>
        rw [hq] at hst
        simp only [] at hst ⊢
        by_cases he : st.err.isSome = true
        · rw [if_pos he] at hst; cases hst
        · rw [if_neg he] at hst
          rw [if_neg he]
          exact ih _ true _ _ _ hxs hst

/-- When the loop has taken the lines `ls` without leaving and no handler is
in charge, a line `=== END ===` ends `parseText` with no error: the record is
the post-pass of the record reached, and what follows stays unread. -/
theorem parseText_END (tl : TimeLib) (o o1 : Output) (ls : List Str) (e rest : Str)
    (hls : ∀ x ∈ ls, IsLine x) (he : IsLine e) (hend : trimSpace e = "=== END ===".toList)
    (hst : loopState tl ls none o = some (none, o1)) :
    parseText tl (joinLines ls ++ e ++ rest) o = Run.ret (rest, postPass o1, none) := by
  unfold parseText
  have h1 := joinLines_length hls
  have h2 := isLine_length he
  obtain ⟨k, hk⟩ : ∃ k, (joinLines ls ++ e ++ rest).length + 1 = (k + 1) + ls.length :=
    ⟨(joinLines ls ++ e ++ rest).length - ls.length, by
      simp only [List.length_append]; omega⟩
  rw [hk, List.append_assoc]
  obtain ⟨i1, hi⟩ := parseLoop_lines tl (k + 1) (e ++ rest) ls none false o none o1 hls hst
  rw [hi, parseLoop_succ, readLine_of_isLine he]
  simp only [Option.isSome_none, Bool.false_eq_true, false_and, if_false, false_or]
  have ht : topParsers (trimSpace e) = some none := by rw [hend]; decide
  rw [if_pos ht]
  rfl
/-- C15, the claim as stated fails: inside the information section the line
`=== END ===` goes to the section's handler, which rejects it (no colon), so
`parseSMARTCtl` returns an error; inside the read-SMART-data section the
handler ignores it and the parse goes on, so that the health-result line
after the marker sets the health flag. -/
theorem parseSMARTCtl_END_inside_section :
    parseSMARTCtl sampleTime (NewReader ⟨endInInfoReport, defaultBufSize⟩) {}
      = Run.ret (⟨[], ⟨[], defaultBufSize⟩⟩, { ModelName := "X".toList },
          some (Error.parse Site.infoSplit "=== END ===".toList)) ∧
    parseSMARTCtl sampleTime (NewReader ⟨endInDataReport, defaultBufSize⟩) {}
      = Run.ret (⟨[], ⟨[], defaultBufSize⟩⟩, { SMARTStatus := { Passed := true } }, none) := by
  decide

/-- C15 as amended: for every input in which a line `=== END ===` is read
while no section handler is in charge (the lines `ls` before it leave the
loop at level-1 dispatch with the record `o1`), `parseSMARTCtl` ends at that
line whatever follows: it returns no error, the record is the post-pass of
`o1`, and the input after the marker is left unread in the reader. -/
theorem parseSMARTCtl_END_at_level_one (tl : TimeLib) (r : BufReader) (o o1 : Output)
    (ls : List Str) (e rest : Str)
    (hr : r.rest = joinLines ls ++ e ++ rest)
    (hls : ∀ x ∈ ls, IsLine x) (he : IsLine e) (hend : trimSpace e = "=== END ===".toList)
    (hst : loopState tl ls none o = some (none, o1)) :
    ∃ r1, parseSMARTCtl tl r o = Run.ret (r1, postPass o1, none) ∧ r1.rest = rest := by
  have h := parseSMARTCtl_rest tl r o
  rw [hr, parseText_END tl o o1 ls e rest hls he hend hst] at h
  cases hp : parseSMARTCtl tl r o with
  | panic => rw [hp] at h; simp [Run.map] at h
  | fuel => rw [hp] at h; simp [Run.map] at h
  | ret a =>
    obtain ⟨r1, o2, e2⟩ := a
    rw [hp] at h
    simp only [Run.map, Run.ret.injEq, Prod.mk.injEq] at h
    obtain ⟨h1, h2, h3⟩ := h
    subst h2 h3
    exact ⟨r1, rfl, h1⟩

/-- Witness of C15 as amended: the minimal report followed by a further
line. -/
theorem parseSMARTCtl_END_at_level_one_witness :
    ∃ r1, parseSMARTCtl sampleTime
        (NewReader ⟨minimalReport ++ "Device Model: Z\n".toList, defaultBufSize⟩) {}
        = Run.ret (r1, postPass { minimalRecord with PowerOnTime := {} }, none) ∧
      r1.rest = "Device Model: Z\n".toList :=
  parseSMARTCtl_END_at_level_one sampleTime
    (NewReader ⟨minimalReport ++ "Device Model: Z\n".toList, defaultBufSize⟩) {}
    { minimalRecord with PowerOnTime := {} }
    ["=== START OF INFORMATION SECTION ===\n".toList,
     "Device Model: X\n".toList,
     "Serial Number: Y\n".toList,
     "User Capacity: 1,000 bytes [1 kB]\n".toList,
     "\n".toList,
     "=== START OF READ SMART DATA SECTION ===\n".toList,
     "Vendor Specific SMART Attributes with Thresholds:\n".toList,
     "ID# ATTRIBUTE_NAME FLAG VALUE WORST THRESH RAW_VALUE\n".toList,
     "  9 Power_On_Hours 0x0032 100 100 000 1234\n".toList,
     "\n".toList]
    "=== END ===\n".toList "Device Model: Z\n".toList
    (by decide) (by decide) (by decide) (by decide) (by decide)

/-- C18, the claim as stated fails: the health-result line that follows the
blank line after the attribute table does not set the health flag; the run
returns no error and `Passed` is still false. -/
theorem parseSMARTCtl_health_after_table :
    (parseSMARTCtl sampleTime (NewReader ⟨healthAfterTableReport, defaultBufSize⟩) {}).map
        (fun x => (x.2.1.SMARTStatus.Passed, x.2.1.PowerOnTime.Hours, x.2.2))
      = Run.ret (false, 1234, none) := by
  decide

/-- C18 as amended: when the attribute table handler is in charge and a
blank line is read, the table ends and control returns to the level-1
section-header dispatch with the record unchanged: the loop goes on with no
handler (nil); a health-result line read next is therefore looked up among
the section headers, found missing and discarded, leaving the record
unchanged and the loop still at level 1. -/
theorem parseLoop_blank_line_ends_table {ρ : Type} (rs : ρ → Str × Option Error × ρ)
    (tl : TimeLib) (fuel : Nat) (r : ρ) (idx : Option indices) (input : Bool) (o : Output)
    (hr : (rs r).2.1 = none) (hl : trimSpace (rs r).1 = [])
    (hr2 : (rs (rs r).2.2).2.1 = none) (hh : trimSpace (rs (rs r).2.2).1 = healthLine) :
    parseLoop rs tl (fuel + 1) r (some (LineParser.parseSMARTAttrs idx)) input o
      = parseLoop rs tl fuel (rs r).2.2 none true o ∧
    parseLoop rs tl (fuel + 2) r (some (LineParser.parseSMARTAttrs idx)) input o
      = parseLoop rs tl fuel (rs (rs r).2.2).2.2 none true o := by
  have step1 : ∀ f : Nat, parseLoop rs tl (f + 1) r (some (LineParser.parseSMARTAttrs idx)) input o
      = parseLoop rs tl f (rs r).2.2 none true o := by
    intro f
    rw [parseLoop_succ, hr, hl]
    simp only [Option.isSome_none, Bool.false_eq_true, false_and, if_false]
    have hp : (LineParser.parseSMARTAttrs idx).Parse tl o [] = some ⟨o, none, none⟩ := rfl
    rw [hp]
    rfl
  refine ⟨step1 fuel, ?_⟩
  rw [step1 (fuel + 1), parseLoop_succ, hr2, hh]
  simp only [Option.isSome_none, Bool.false_eq_true, false_and, if_false, false_or]
  have ht : topParsers healthLine = none := by decide
  rw [ht]
  rfl

/-- Witness of C18 as amended: a blank line, then the health-result line,
read while the table handler of the canonical header is in charge. -/
theorem parseLoop_blank_line_ends_table_witness :
    parseLoop readLine sampleTime (7 + 1)
        "\nSMART overall-health self-assessment test result: PASSED\n=== END ===\n".toList
        (some (LineParser.parseSMARTAttrs (some
          { name := 1, flag := 2, value := 3, worst := 4, threshold := 5, raw_value := 6 })))
        true {}
      = parseLoop readLine sampleTime 7
          (readLine "\nSMART overall-health self-assessment test result: PASSED\n=== END ===\n".toList).2.2
          none true {} ∧
    parseLoop readLine sampleTime (7 + 2)
        "\nSMART overall-health self-assessment test result: PASSED\n=== END ===\n".toList
        (some (LineParser.parseSMARTAttrs (some
          { name := 1, flag := 2, value := 3, worst := 4, threshold := 5, raw_value := 6 })))
        true {}
      = parseLoop readLine sampleTime 7
          (readLine (readLine
            "\nSMART overall-health self-assessment test result: PASSED\n=== END ===\n".toList).2.2).2.2
          none true {} :=
  parseLoop_blank_line_ends_table readLine sampleTime 7
    "\nSMART overall-health self-assessment test result: PASSED\n=== END ===\n".toList
    (some { name := 1, flag := 2, value := 3, worst := 4, threshold := 5, raw_value := 6 })
    true {} (by decide) (by decide) (by decide) (by decide)

/-! ## Hexadecimal tokens and the World-Wide-Name -/

theorem isHexDigit_ranges {c : Char} (h : isHexDigit c = true) :
    (48 ≤ c.toNat ∧ c.toNat ≤ 57) ∨ (97 ≤ c.toNat ∧ c.toNat ≤ 102) ∨
    (65 ≤ c.toNat ∧ c.toNat ≤ 70) := by
  simp only [isHexDigit, Bool.or_eq_true, Bool.and_eq_true, decide_eq_true_eq] at h
  rcases h with (h | h) | h
  · exact Or.inl h
  · exact Or.inr (Or.inl h)
  · exact Or.inr (Or.inr h)

theorem digitVal_of_isHexDigit {c : Char} (h : isHexDigit c = true) :
    digitVal c = some (hexDigit c) ∧ hexDigit c < 16 := by
  have hr := isHexDigit_ranges h
  unfold digitVal hexDigit
  simp only []
  rcases hr with h1 | h1 | h1
  · rw [if_pos h1, if_pos h1.2]; exact ⟨rfl, by omega⟩
  · rw [if_neg (show ¬ (48 ≤ c.toNat ∧ c.toNat ≤ 57) by omega),
      if_pos (show 97 ≤ c.toNat ∧ c.toNat ≤ 122 by omega),
      if_neg (show ¬ c.toNat ≤ 57 by omega), if_neg (show ¬ c.toNat ≤ 70 by omega)]
    exact ⟨by congr 1; omega, by omega⟩
  · rw [if_neg (show ¬ (48 ≤ c.toNat ∧ c.toNat ≤ 57) by omega),
      if_neg (show ¬ (97 ≤ c.toNat ∧ c.toNat ≤ 122) by omega),
      if_pos (show 65 ≤ c.toNat ∧ c.toNat ≤ 90 by omega),
      if_neg (show ¬ c.toNat ≤ 57 by omega), if_pos h1.2]
    exact ⟨by congr 1; omega, by omega⟩

theorem isHexDigit_ne {c : Char} (h : isHexDigit c = true) :
    c ≠ '_' ∧ c ≠ '+' ∧ c ≠ '-' ∧ isSpace c = false := by
  have hr := isHexDigit_ranges h
  refine ⟨?_, ?_, ?_, ?_⟩
  · intro e; rw [e] at h; revert h; decide
  · intro e; rw [e] at h; revert h; decide
  · intro e; rw [e] at h; revert h; decide
  · unfold isSpace
    simp only [Bool.or_eq_false_iff, Bool.and_eq_false_iff, decide_eq_false_iff_not,
      beq_eq_false_iff_ne, ne_eq]
    omega

theorem parseDigits_hex (b0 : Bool) : ∀ (ds : Str) (acc : Nat),
    (∀ c ∈ ds, isHexDigit c = true) →
    parseDigits 16 b0 ds acc = some (ds.foldl (fun a c => a * 16 + hexDigit c) acc) := by
  intro ds
  induction ds with
  | nil => intro acc _; rfl
  | cons c cs ih =>
    intro acc h
    have hc := h c (List.mem_cons_self _ _)
    obtain ⟨h1, h2⟩ := digitVal_of_isHexDigit hc
    rw [parseDigits, if_neg (fun e => (isHexDigit_ne hc).1 e.1), h1]
    simp only []
    rw [if_neg (by omega)]
    exact ih _ (fun d hd => h d (List.mem_cons_of_mem _ hd))

/-- A non-empty string of hexadecimal digits whose value fits `int64` parses,
in base 16, to that value. -/
theorem parseInt_hex {ds : Str} (hne : ds ≠ []) (hd : ∀ c ∈ ds, isHexDigit c = true)
    (hv : hexVal ds < 2 ^ 63) : parseInt ds 16 64 = some (hexVal ds : Int) := by
  cases ds with
  | nil => exact absurd rfl hne
  | cons c r =>
    obtain ⟨_, hp, hm, _⟩ := isHexDigit_ne (hd c (List.mem_cons_self _ _))
    have hu : parseUint (c :: r) 16 64 = some (hexVal (c :: r)) := by
      unfold parseUint
      rw [if_neg (by simp)]
      simp only [show decide ((16 : Nat) = 0) = false by decide, Bool.false_eq_true, if_false,
        false_and]
      rw [parseDigits_hex false (c :: r) 0 hd]
      simp only []
      rw [if_neg (by unfold hexVal at hv; omega)]
      rfl
    unfold parseInt
    simp only []
    rw [if_neg (by simp [hp, hm]), hu]
    simp only [show decide (c = '-') = false by simpa using hm]
    rw [if_neg (by simp; omega), if_neg (by simp)]
    rfl

theorem isHexDigit_of_digitVal {c : Char} {d : Nat} (h : digitVal c = some d) (hd : d < 16) :
    isHexDigit c = true := by
  unfold digitVal at h
  simp only [] at h
  unfold isHexDigit
  by_cases h1 : 48 ≤ c.toNat ∧ c.toNat ≤ 57
  · simp [h1.1, h1.2]
  · rw [if_neg h1] at h
    by_cases h2 : 97 ≤ c.toNat ∧ c.toNat ≤ 122
    · rw [if_pos h2] at h
      simp only [Option.some.injEq] at h
      have : c.toNat ≤ 102 := by omega
      simp [h2.1, this]
    · rw [if_neg h2] at h
      by_cases h3 : 65 ≤ c.toNat ∧ c.toNat ≤ 90
      · rw [if_pos h3] at h
        simp only [Option.some.injEq] at h
        have : c.toNat ≤ 70 := by omega
        simp [h3.1, this]
      · rw [if_neg h3] at h; cases h

theorem parseDigits_some_hex : ∀ (ds : Str) (acc n : Nat),
    parseDigits 16 false ds acc = some n → ∀ c ∈ ds, isHexDigit c = true := by
  intro ds
  induction ds with
  | nil => intro acc n _ c hc; cases hc
  | cons d ds ih =>
    intro acc n h c hc
    rw [parseDigits, if_neg (by simp)] at h
    cases hd : digitVal d with
    | none => rw [hd] at h; cases h
    | some v =>
      rw [hd] at h
      simp only [] at h
      by_cases hv : 16 ≤ v
      · rw [if_pos hv] at h; cases h
      · rw [if_neg hv] at h
        rcases List.mem_cons.mp hc with e | e
        · rw [e]; exact isHexDigit_of_digitVal hd (by omega)
        · exact ih _ _ h c e

theorem parseUint_some_hex {s : Str} {n : Nat} (h : parseUint s 16 64 = some n) :
    s ≠ [] ∧ ∀ c ∈ s, isHexDigit c = true := by
  unfold parseUint at h
  by_cases hs : s = []
  · rw [if_pos hs] at h; cases h
  · rw [if_neg hs] at h
    simp only [show decide ((16 : Nat) = 0) = false by decide, Bool.false_eq_true, if_false,
      false_and] at h
    cases hp : parseDigits 16 false s 0 with
    | none => rw [hp] at h; cases h
    | some m => exact ⟨hs, parseDigits_some_hex s 0 m hp⟩

/-- What `strconv.ParseInt(s, 16, 64)` accepts is a hexadecimal integer. -/
theorem parseInt_some_hex {s : Str} {n : Int} (h : parseInt s 16 64 = some n) : HexInt s := by
  cases s with
  | nil => cases h
  | cons c r =>
    unfold parseInt at h
    simp only [] at h
    by_cases hc : c = '+' ∨ c = '-'
    · rw [if_pos hc] at h
      cases hu : parseUint r 16 64 with
      | none => rw [hu] at h; cases h
      | some m =>
        obtain ⟨h1, h2⟩ := parseUint_some_hex hu
        refine ⟨[c], r, rfl, ?_, h1, h2⟩
        rcases hc with e | e
        · exact Or.inr (Or.inl (by rw [e]))
        · exact Or.inr (Or.inr (by rw [e]))
    · rw [if_neg hc] at h
      cases hu : parseUint (c :: r) 16 64 with
      | none => rw [hu] at h; cases h
      | some m =>
        obtain ⟨h1, h2⟩ := parseUint_some_hex hu
        exact ⟨[], c :: r, rfl, Or.inl rfl, h1, h2⟩

theorem hexInt_word {s : Str} (h : HexInt s) : s ≠ [] ∧ ∀ c ∈ s, isSpace c = false := by
  obtain ⟨sign, ds, hs, hsign, hne, hd⟩ := h
  subst hs
  refine ⟨by simp [hne], ?_⟩
  intro c hc
  rcases List.mem_append.mp hc with e | e
  · rcases hsign with h1 | h1 | h1
    · rw [h1] at e; cases e
    · rw [h1] at e; simp only [List.mem_singleton] at e; rw [e]; decide
    · rw [h1] at e; simp only [List.mem_singleton] at e; rw [e]; decide
  · exact (isHexDigit_ne (hd c e)).2.2.2

/-! ## Splitting and fields -/

theorem index_some_split (sep : Str) : ∀ (s : Str) (m : Nat), index s sep = some m →
    s = s.take m ++ sep ++ s.drop (m + sep.length) := by
  intro s
  induction s with
  | nil =>
    intro m h
    unfold index at h
    by_cases hs : sep = []
    · rw [hs]; simp
    · rw [if_neg hs] at h; cases h
  | cons c cs ih =>
    intro m h
    rw [index_cons] at h
    by_cases hp : sep.isPrefixOf (c :: cs) = true
    · rw [if_pos hp] at h
      simp only [Option.some.injEq] at h
      subst h
      obtain ⟨t, ht⟩ := List.isPrefixOf_iff_prefix.mp hp
      rw [← ht]
      simp
    · rw [if_neg hp] at h
      cases hi : index cs sep with
      | none => rw [hi] at h; cases h
      | some j =>
        rw [hi] at h
        simp only [Option.map_some', Option.some.injEq] at h
        subst h
        have := ih j hi
        rw [show j + 1 + sep.length = (j + sep.length) + 1 by omega]
        simp only [List.take_succ_cons, List.drop_succ_cons, List.cons_append]
        rw [← this]

theorem splitN_succ_succ (s sep : Str) (n : Nat) :
    splitN s sep (n + 2) =
      match index s sep with
      | none => [s]
      | some m => s.take m :: splitN (s.drop (m + sep.length)) sep (n + 1) := by
  rw [splitN]

/-- Three pieces cut by `SplitN(v, sep, 3)` give the string back when joined
by the separator. -/
theorem splitN_three {v sep x y z : Str} (h : splitN v sep 3 = [x, y, z]) :
    v = x ++ sep ++ (y ++ sep ++ z) := by
  rw [splitN_succ_succ] at h
  cases h1 : index v sep with
  | none => rw [h1] at h; simp at h
  | some m =>
    rw [h1] at h
    simp only [List.cons.injEq] at h
    obtain ⟨hx, hrest⟩ := h
    rw [splitN_succ_succ] at hrest
    cases h2 : index (v.drop (m + sep.length)) sep with
    | none => rw [h2] at hrest; simp at hrest
    | some j =>
      rw [h2] at hrest
      simp only [splitN, List.cons.injEq, and_true] at hrest
      obtain ⟨hy, hz⟩ := hrest
      have e1 := index_some_split sep v m h1
      have e2 := index_some_split sep _ j h2
      rw [hy, hz] at e2
      rw [hx, e2] at e1
      exact e1

theorem fieldsGo_word (w : Str) : ∀ (rest cur : Str), (∀ c ∈ w, isSpace c = false) →
    fieldsGo (w ++ rest) cur = fieldsGo rest (cur ++ w) := by
  induction w with
  | nil => intro rest cur _; simp
  | cons c cs ih =>
    intro rest cur h
    have hc := h c (List.mem_cons_self _ _)
    rw [List.cons_append, fieldsGo]
    simp only [hc, Bool.false_eq_true, if_false]
    rw [ih rest (cur ++ [c]) (fun d hd => h d (List.mem_cons_of_mem _ hd))]
    simp

theorem fieldsGo_space (rest cur : Str) (h : cur ≠ []) :
    fieldsGo (' ' :: rest) cur = cur :: fieldsGo rest [] := by
  rw [fieldsGo]
  have : isSpace ' ' = true := by decide
  simp only [this, if_true]
  rw [if_neg h]

/-- Three words joined by single spaces have exactly these three fields. -/
theorem fields_three {x y z : Str} (hx : x ≠ [] ∧ ∀ c ∈ x, isSpace c = false)
    (hy : y ≠ [] ∧ ∀ c ∈ y, isSpace c = false) (hz : z ≠ [] ∧ ∀ c ∈ z, isSpace c = false) :
    fields (x ++ " ".toList ++ (y ++ " ".toList ++ z)) = [x, y, z] := by
  unfold fields
  have e : x ++ " ".toList ++ (y ++ " ".toList ++ z) = x ++ (' ' :: (y ++ (' ' :: (z ++ [])))) := by
    simp
  rw [e, fieldsGo_word x _ _ hx.2, List.nil_append, fieldsGo_space _ _ hx.1,
    fieldsGo_word y _ _ hy.2, List.nil_append, fieldsGo_space _ _ hy.1,
    fieldsGo_word z _ _ hz.2, List.nil_append, fieldsGo]
  rw [if_neg hz.1]

theorem parseInfoSwitch_wwn (tl : TimeLib) (o : Output) (v : Str) :
    parseInfoSwitch tl o "lu wwn device id".toList v =
      match splitN v " ".toList 3 with
      | [f0, f1, f2] => parseInfoWWN o f0 f1 f2
      | _ => Step.fail o Site.wwnSplit v := by
  unfold parseInfoSwitch
  rw [if_neg (by decide), if_neg (by decide), if_neg (by decide), if_pos rfl]

theorem splitN_three_append {a b c : Str} (ha : ' ' ∉ a) (hb : ' ' ∉ b) :
    splitN (a ++ " ".toList ++ (b ++ " ".toList ++ c)) " ".toList 3 = [a, b, c] := by
  show splitN (a ++ [' '] ++ (b ++ [' '] ++ c)) [' '] 3 = [a, b, c]
  rw [splitN_succ_succ, index_append ' ' [] (b ++ [' '] ++ c) a ha]
  have ht : List.take a.length (a ++ [' '] ++ (b ++ [' '] ++ c)) = a := by
    rw [List.append_assoc, List.take_left']
    rfl
  have hd : List.drop (a.length + [' '].length) (a ++ [' '] ++ (b ++ [' '] ++ c))
      = b ++ [' '] ++ c := by
    rw [List.drop_left' (by simp)]
  simp only []
  rw [ht, hd]
  show a :: splitN (b ++ [' '] ++ c) [' '] 2 = [a, b, c]
  rw [splitN_two_append ' ' [] c b hb]

theorem parseInfoWWN_err_none {o : Output} {x y z : Str}
    (h : (parseInfoWWN o x y z).err = none) : HexInt x ∧ HexInt y ∧ HexInt z := by
  unfold parseInfoWWN at h
  cases hx : parseInt x 16 64 with
  | none => rw [hx] at h; cases h
  | some n1 =>
    rw [hx] at h
    simp only [] at h
    cases hy : parseInt y 16 64 with
    | none => rw [hy] at h; cases h
    | some n2 =>
      rw [hy] at h
      simp only [] at h
      cases hz : parseInt z 16 64 with
      | none => rw [hz] at h; cases h
      | some n3 => exact ⟨parseInt_some_hex hx, parseInt_some_hex hy, parseInt_some_hex hz⟩

/-- C11, as the claim states it, fails: the value is cut at single spaces, not
at whitespace, and a token must fit `int64`. The value `5  0014ee 2b3c4d5e6`
(two spaces after `5`) has the three fields `5`, `0014ee`, `2b3c4d5e6`, yet the
handler reports the empty string as not hexadecimal, having already stored NAA;
with tabs between the tokens it reports that the value cannot be split; and the
sixteen-digit token `ffffffffffffffff` is reported as not hexadecimal. -/
theorem parseInfo_wwn_whitespace :
    fields "5  0014ee 2b3c4d5e6".toList = ["5".toList, "0014ee".toList, "2b3c4d5e6".toList] ∧
    (parseInfo sampleTime {} "LU WWN Device Id: 5  0014ee 2b3c4d5e6".toList).err
      = some (Error.parse Site.wwnHex []) ∧
    (parseInfo sampleTime {} "LU WWN Device Id: 5  0014ee 2b3c4d5e6".toList).o.WWN
      = ⟨5, 0, 0⟩ ∧
    fields "5\t0014ee\t2b3c4d5e6".toList = ["5".toList, "0014ee".toList, "2b3c4d5e6".toList] ∧
    (parseInfo sampleTime {} "LU WWN Device Id: 5\t0014ee\t2b3c4d5e6".toList).err
      = some (Error.parse Site.wwnSplit "5\t0014ee\t2b3c4d5e6".toList) ∧
    (parseInfo sampleTime {} "LU WWN Device Id: 5 0014ee ffffffffffffffff".toList).err
      = some (Error.parse Site.wwnHex "ffffffffffffffff".toList) := by
  decide

/-- C11, amended: on a `LU WWN Device Id` line (key compared without case,
value trimmed), (1) for a value made of three non-empty strings of hexadecimal
digits joined by single spaces, each denoting a number below `2^63`, the
information handler returns no error, stays in charge and sets WWN.NAA,
WWN.OUI and WWN.ID to the numbers the three tokens denote in base 16, in that
order, leaving the rest of the record alone; (2) it returns an error when the
value does not have exactly three whitespace-separated tokens or some token is
not a hexadecimal integer. -/
theorem parseInfo_wwn (tl : TimeLib) (o : Output) (l f0 f1 : Str)
    (hsplit : splitN l ":".toList 2 = [f0, f1])
    (hkey : toLower (trimSpace f0) = "lu wwn device id".toList) :
    (∀ a b c : Str, trimSpace f1 = a ++ " ".toList ++ (b ++ " ".toList ++ c) →
      a ≠ [] → b ≠ [] → c ≠ [] →
      (∀ x ∈ a, isHexDigit x = true) → (∀ x ∈ b, isHexDigit x = true) →
      (∀ x ∈ c, isHexDigit x = true) →
      hexVal a < 2 ^ 63 → hexVal b < 2 ^ 63 → hexVal c < 2 ^ 63 →
      parseInfo tl o l =
        ⟨{ o with WWN := ⟨(hexVal a : Int), (hexVal b : Int), (hexVal c : Int)⟩ },
          some LineParser.parseInfo, none⟩) ∧
    (((fields (trimSpace f1)).length ≠ 3 ∨ ∃ t ∈ fields (trimSpace f1), ¬ HexInt t) →
      (parseInfo tl o l).err ≠ none) := by
  rw [parseInfo_of_split tl o hsplit, hkey, parseInfoSwitch_wwn]
  refine ⟨?_, ?_⟩
  · intro a b c hv ha hb hc hda hdb hdc hfa hfb hfc
    have hsa : ' ' ∉ a := fun hm => by
      have := hda _ hm
      revert this; decide
    have hsb : ' ' ∉ b := fun hm => by
      have := hdb _ hm
      revert this; decide
    rw [hv, splitN_three_append hsa hsb]
    simp only []
    unfold parseInfoWWN
    rw [parseInt_hex ha hda hfa, parseInt_hex hb hdb hfb, parseInt_hex hc hdc hfc]
  · intro hbad herr
    rcases hs : splitN (trimSpace f1) " ".toList 3 with _ | ⟨x, _ | ⟨y, _ | ⟨z, _ | ⟨w, t⟩⟩⟩⟩
    · rw [hs] at herr; cases herr
    · rw [hs] at herr; cases herr
    · rw [hs] at herr; cases herr
    · rw [hs] at herr
      simp only [] at herr
      obtain ⟨hx, hy, hz⟩ := parseInfoWWN_err_none herr
      have hf := fields_three (hexInt_word hx) (hexInt_word hy) (hexInt_word hz)
      rw [← splitN_three hs] at hf
      rw [hf] at hbad
      rcases hbad with h1 | ⟨t, ht, hn⟩
      · exact h1 rfl
      · simp only [List.mem_cons, List.mem_singleton, List.not_mem_nil, or_false] at ht
        rcases ht with e | e | e
        · exact hn (e ▸ hx)
        · exact hn (e ▸ hy)
        · exact hn (e ▸ hz)
    · rw [hs] at herr; cases herr

/-- Witness of C11: the line `LU WWN Device Id: 5 0014ee 2b3c4d5e6` gives
NAA 5, OUI 0x14ee and ID 0x2b3c4d5e6. -/
theorem parseInfo_wwn_witness :
    parseInfo sampleTime {} "LU WWN Device Id: 5 0014ee 2b3c4d5e6".toList =
      ⟨{ ({} : Output) with WWN := ⟨(hexVal "5".toList : Int), (hexVal "0014ee".toList : Int),
            (hexVal "2b3c4d5e6".toList : Int)⟩ },
        some LineParser.parseInfo, none⟩ :=
  (parseInfo_wwn sampleTime {} "LU WWN Device Id: 5 0014ee 2b3c4d5e6".toList
      "LU WWN Device Id".toList " 5 0014ee 2b3c4d5e6".toList (by decide) (by decide)).1
    "5".toList "0014ee".toList "2b3c4d5e6".toList (by decide) (by decide) (by decide) (by decide)
    (by decide) (by decide) (by decide) (by decide) (by decide) (by decide)

/-! ## Lines the section handlers ignore or reject -/

theorem index_eq_none_of_not_mem {c : Char} {l : Str} (h : c ∉ l) : index l [c] = none := by
  cases hi : index l [c] with
  | none => rfl
  | some i =>
    obtain ⟨a, b, hab⟩ := index_some_occurs [c] l i hi
    exact absurd (by rw [← hab]; simp) h

theorem splitN_two_of_not_mem {c : Char} {l : Str} (h : c ∉ l) : splitN l [c] 2 = [l] := by
  rw [splitN_succ_succ, index_eq_none_of_not_mem h]

theorem parseInfoSwitch_other (tl : TimeLib) (o : Output) (k v : Str) (hk : k ∉ infoKeys) :
    parseInfoSwitch tl o k v = ⟨o, some LineParser.parseInfo, none⟩ := by
  simp only [infoKeys, List.mem_cons, List.mem_singleton, List.not_mem_nil, or_false,
    not_or] at hk
  obtain ⟨h1, h2, h3, h4, h5, h6, h7, h8, h9⟩ := hk
  unfold parseInfoSwitch
  rw [if_neg h1, if_neg h2, if_neg h3, if_neg h4, if_neg h5, if_neg h6, if_neg h7, if_neg h8]
  by_cases ha : k = "ata Version is".toList
  · rw [if_pos ha]
  · rw [if_neg ha, if_neg h9]

/-- C22: in the information handler, for every record, (1) a non-empty line
without the character `:` is answered with the parse error `cannot split ...
into key:value pair`, no next handler and the record unchanged; (2) read by
the loop while the information handler is in charge, such a line ends the run
with that error; (3) a line `key:value` (the key being what stands before
the first colon) whose trimmed, lower-cased key is none of the keys the
handler acts on is answered with no error, the record unchanged and the
information handler as the next handler. -/
theorem parseInfo_line_without_colon (tl : TimeLib) (o : Output) (l : Str) :
    (l ≠ [] → ':' ∉ l → parseInfo tl o l = ⟨o, none, some (Error.parse Site.infoSplit l)⟩) ∧
    (l ≠ [] → ':' ∉ l →
      ∀ (rs : Str → Str × Option Error × Str) (fuel : Nat) (r : Str) (input : Bool),
        (rs r).2.1 = none → trimSpace (rs r).1 = l →
        parseLoop rs tl (fuel + 1) r (some LineParser.parseInfo) input o
          = Run.ret ((rs r).2.2, o, some (Error.parse Site.infoSplit l))) ∧
    (∀ key value : Str, l = key ++ ":".toList ++ value → ':' ∉ key →
      toLower (trimSpace key) ∉ infoKeys →
      parseInfo tl o l = ⟨o, some LineParser.parseInfo, none⟩) := by
  have h1 : l ≠ [] → ':' ∉ l →
      parseInfo tl o l = ⟨o, none, some (Error.parse Site.infoSplit l)⟩ := by
    intro hne hc
    unfold parseInfo
    rw [if_neg hne, show (":".toList : Str) = [':'] from rfl, splitN_two_of_not_mem hc]
    rfl
  refine ⟨h1, ?_, ?_⟩
  · intro hne hc rs fuel r input hr hl
    rw [parseLoop_succ, hr, hl]
    simp only [Option.isSome_none, Bool.false_eq_true, false_and, if_false]
    have hp : LineParser.parseInfo.Parse tl o l
        = some ⟨o, none, some (Error.parse Site.infoSplit l)⟩ := by
      rw [← h1 hne hc]
      rfl
    rw [hp]
    rfl
  · intro key value hl hc hk
    have hs : splitN l ":".toList 2 = [key, value] := by
      rw [hl]
      exact splitN_two_append ':' [] value key hc
    rw [parseInfo_of_split tl o hs]
    exact parseInfoSwitch_other tl o _ _ hk

/-- Witness of C22: the line `Device Model  X` (no colon) is rejected, also
by the loop, and the line `SMART support is: Enabled` is ignored. -/
theorem parseInfo_line_without_colon_witness :
    parseInfo sampleTime {} "Device Model  X".toList
      = ⟨{}, none, some (Error.parse Site.infoSplit "Device Model  X".toList)⟩ ∧
    parseLoop readLine sampleTime 1 "Device Model  X\nSerial Number: Y\n".toList
        (some LineParser.parseInfo) true {}
      = Run.ret ("Serial Number: Y\n".toList, {},
          some (Error.parse Site.infoSplit "Device Model  X".toList)) ∧
    parseInfo sampleTime {} "SMART support is: Enabled".toList
      = ⟨{}, some LineParser.parseInfo, none⟩ :=
  ⟨(parseInfo_line_without_colon sampleTime {} "Device Model  X".toList).1
      (by decide) (by decide),
   (parseInfo_line_without_colon sampleTime {} "Device Model  X".toList).2.1
      (by decide) (by decide) readLine 0 "Device Model  X\nSerial Number: Y\n".toList true
      (by decide) (by decide),
   (parseInfo_line_without_colon sampleTime {} "SMART support is: Enabled".toList).2.2
      "SMART support is".toList " Enabled".toList (by decide) (by decide) (by decide)⟩

end Smartctl2Prom
